import Mathlib

/-!
Verification of the season-pack decomposition engine of crowdclient-qbittorrent.

The Go source (main.go) is shallowly embedded below.  Strings are Lean
strings (lists of unicode scalar chars, matching Go rune sequences); the
regular expressions used by the source are small and fixed, so each one is
embedded as a specialized executable matcher implementing RE2 leftmost-first
semantics for exactly that pattern (word boundaries are the ASCII \b of RE2;
case-insensitive matching is modelled for ASCII letters, which covers every
letter the patterns can mention).  The file system seen by the scanner is
embedded as a tree of nodes with explicit readability flags, and
filepath.WalkDir's abort-on-error semantics are modelled directly.
-/

namespace CrowdClient

/-! ## Character classes (RE2 ASCII classes used by the source's patterns) -/

/-- ASCII digit, the \d class of RE2. -/
def isDigitCh (c : Char) : Bool := decide ('0' ≤ c) && decide (c ≤ '9')

/-- ASCII lowercase letter (the range used by isCompletelyLowercase). -/
def isLowerCh (c : Char) : Bool := decide ('a' ≤ c) && decide (c ≤ 'z')

/-- ASCII uppercase letter (the range used by isCompletelyLowercase). -/
def isUpperCh (c : Char) : Bool := decide ('A' ≤ c) && decide (c ≤ 'Z')

/-- RE2 word character \w = [0-9A-Za-z_], used for \b boundaries. -/
def isWordCh (c : Char) : Bool :=
  isDigitCh c || isLowerCh c || isUpperCh c || decide (c = '_')

/-- Case-insensitive test for the letter S. -/
def isSCh (c : Char) : Bool := decide (c = 'S') || decide (c = 's')

/-- Case-insensitive test for the letter E. -/
def isECh (c : Char) : Bool := decide (c = 'E') || decide (c = 'e')

/-- Whitespace trimmed by strings.TrimSpace (ASCII and Latin-1 space chars;
the source's names never contain the rarer unicode spaces). -/
def isSpaceCh (c : Char) : Bool :=
  decide (c = ' ') || decide (c = '\t') || decide (c = '\n') ||
  decide (c = '\x0b') || decide (c = '\x0c') || decide (c = '\r') ||
  decide (c = '\u0085') || decide (c = ' ')

/-- Length of the leading run of ASCII digits. -/
def leadDigits (cs : List Char) : Nat := (cs.takeWhile isDigitCh).length

/-- True when a word boundary \b lies between a word char and this suffix
(that is, the suffix is empty or starts with a non-word char). -/
def boundaryAfter (cs : List Char) : Bool :=
  match cs with
  | [] => true
  | c :: _ => !isWordCh c

/-! ## Token tests at a fixed position

Each test receives the suffix of the input that starts right after a
candidate S character (or at the position being examined) and decides
whether the rest of the fixed pattern matches there.  Because the digit
quantifiers \d«2,4» sit directly against a letter or a boundary, greedy
matching with backtracking degenerates to a condition on the full leading
digit run, which these tests implement. -/

/-- After an S: 2-4 digits then a word boundary (tail of \bS\d«2,4»\b). -/
def seasonDigitsTok (cs : List Char) : Bool :=
  let r := leadDigits cs
  decide (2 ≤ r) && decide (r ≤ 4) && boundaryAfter (cs.drop r)

/-- After an S: 2-4 digits, E, 2-4 digits, then a word boundary
(tail of \bS\d«2,4»E\d«2,4»\b). -/
def episodeDigitsTok (cs : List Char) : Bool :=
  let r := leadDigits cs
  decide (2 ≤ r) && decide (r ≤ 4) &&
    (match cs.drop r with
     | e :: rest =>
       isECh e &&
         (let r2 := leadDigits rest
          decide (2 ≤ r2) && decide (r2 ≤ 4) && boundaryAfter (rest.drop r2))
     | [] => false)

/-- After an S: the literal digits 20, two more digits, then a word boundary
(tail of \bS(20\d«2»)\b). -/
def isoYearDigitsTok (cs : List Char) : Bool :=
  match cs with
  | a :: b :: c :: d :: rest =>
    decide (a = '2') && decide (b = '0') && isDigitCh c && isDigitCh d &&
      boundaryAfter rest
  | _ => false

/-! ## Whole-string existence scans with \b tracking

The scans walk the input left to right carrying whether the previous
character was a word character (false at the start of the string), which is
exactly the information \b needs. -/

/-- Does (?i)\bS\d«2,4»\b match anywhere?  pw is whether the previous char
was a word char. -/
def hasSeasonTok (pw : Bool) (cs : List Char) : Bool :=
  match cs with
  | [] => false
  | c :: rest =>
    (!pw && isSCh c && seasonDigitsTok rest) || hasSeasonTok (isWordCh c) rest

/-- Does (?i)\bS\d«2,4»E\d«2,4»\b match anywhere? -/
def hasEpisodeTok (pw : Bool) (cs : List Char) : Bool :=
  match cs with
  | [] => false
  | c :: rest =>
    (!pw && isSCh c && episodeDigitsTok rest) || hasEpisodeTok (isWordCh c) rest

/-- Does (?i)\bS(20\d«2»)\b match anywhere? -/
def hasIsoYearTok (pw : Bool) (cs : List Char) : Bool :=
  match cs with
  | [] => false
  | c :: rest =>
    (!pw && isSCh c && isoYearDigitsTok rest) || hasIsoYearTok (isWordCh c) rest

/-! ## isSeasonPack (main.go) -/

/-- isSeasonPack: a season token without any episode token anywhere, or an
S20xx year token. -/
def isSeasonPack (jobName : String) : Bool :=
  (hasSeasonTok false jobName.data && !hasEpisodeTok false jobName.data) ||
    hasIsoYearTok false jobName.data

/-! ## FindStringSubmatch models

findStringSubmatch of a fixed pattern is modelled as a left-to-right scan
that returns the groups of the leftmost match. -/

/-- Match of (?i)S(\d«2,4»)E(\d«2,4») starting exactly here; returns the two
digit groups.  The season digits sit directly against the literal E, so the
greedy quantifier succeeds only on the full digit run. -/
def seMatchAt (cs : List Char) : Option (List Char × List Char) :=
  match cs with
  | [] => none
  | c :: rest =>
    if isSCh c then
      let r := leadDigits rest
      if 2 ≤ r ∧ r ≤ 4 then
        match rest.drop r with
        | e :: rest2 =>
          if isECh e then
            let r2 := leadDigits rest2
            if 2 ≤ r2 then some (rest.take r, rest2.take (min r2 4)) else none
          else none
        | [] => none
      else none
    else none

/-- Leftmost match of (?i)S(\d«2,4»)E(\d«2,4»): the pair
(season digits, episode digits). -/
def seFind : List Char → Option (List Char × List Char)
  | [] => none
  | c :: rest =>
    match seMatchAt (c :: rest) with
    | some r => some r
    | none => seFind rest

/-- Match of (\d«4»-\d«2»-\d«2») starting exactly here; returns the matched
date text. -/
def isoMatchAt (cs : List Char) : Option (List Char) :=
  match cs with
  | a :: b :: c :: d :: h1 :: e :: f :: h2 :: g :: i :: _ =>
    if isDigitCh a && isDigitCh b && isDigitCh c && isDigitCh d &&
        decide (h1 = '-') && isDigitCh e && isDigitCh f &&
        decide (h2 = '-') && isDigitCh g && isDigitCh i then
      some [a, b, c, d, '-', e, f, '-', g, i]
    else none
  | _ => none

/-- Leftmost match of (\d«4»-\d«2»-\d«2»). -/
def isoFind : List Char → Option (List Char)
  | [] => none
  | c :: rest =>
    match isoMatchAt (c :: rest) with
    | some r => some r
    | none => isoFind rest

/-- Match of (?i)S\d«2,4»(E\d«2,4») | (?i)(E\d«2,4») starting exactly here
(the two alternatives need an S resp. an E as first char, so they are
mutually exclusive at one position; the first one is preferred).  Returns
the text of the group that matched, case preserved. -/
def epNumMatchAt (cs : List Char) : Option (List Char) :=
  match cs with
  | [] => none
  | c :: rest =>
    if isSCh c then
      let r := leadDigits rest
      if 2 ≤ r ∧ r ≤ 4 then
        match rest.drop r with
        | e :: rest2 =>
          if isECh e then
            let r2 := leadDigits rest2
            if 2 ≤ r2 then some (e :: rest2.take (min r2 4)) else none
          else none
        | [] => none
      else none
    else if isECh c then
      let r := leadDigits rest
      if 2 ≤ r then some (c :: rest.take (min r 4)) else none
    else none

/-- Leftmost-first scan for epNumMatchAt. -/
def epNumFind : List Char → Option (List Char)
  | [] => none
  | c :: rest =>
    match epNumMatchAt (c :: rest) with
    | some r => some r
    | none => epNumFind rest

/-- extractEpisodeNumber (main.go): upper-cased episode token of the
leftmost SxxEyy or bare Eyy occurrence, or the empty string.  The source
walks the submatch slots keeping the first non-empty one that upper-cases
to an E-prefixed string; exactly one slot is non-empty here and it always
starts with the letter E, so the guard is kept explicitly. -/
def extractEpisodeNumber (fileName : String) : String :=
  match epNumFind fileName.data with
  | some g =>
    let u := g.map Char.toUpper
    if (match u with | x :: _ => decide (x = 'E') | [] => false) then ⟨u⟩ else ""
  | none => ""

/-- strings.EqualFold, modelled for ASCII case folding. -/
def goEqualFold (a b : String) : Bool :=
  a.data.map Char.toLower == b.data.map Char.toLower

/-- isRelatedFileByEpisode (main.go). -/
def isRelatedFileByEpisode (fileName episodeNum : String) : Bool :=
  goEqualFold (extractEpisodeNumber fileName) episodeNum

/-- normalizeString (main.go): lower-case, then drop dots, then drop
spaces. -/
def normalizeChars (cs : List Char) : List Char :=
  ((cs.map Char.toLower).filter (fun c => !decide (c = '.'))).filter
    (fun c => !decide (c = ' '))

/-- String wrapper for normalizeChars. -/
def normalizeString (s : String) : String := ⟨normalizeChars s.data⟩

/-- isCompletelyLowercase (main.go): false as soon as an ASCII uppercase
letter appears, otherwise true iff some ASCII lowercase letter appears. -/
def isCompletelyLowercase (s : String) : Bool :=
  !s.data.any isUpperCh && s.data.any isLowerCh

/-! ## The anchored lazy-prefix patterns of isValidEpisodeFileName -/

/-- Test for S\d«2,4» with nothing after it constrained: an S followed by at
least two digits. -/
def seasonHeadTok (cs : List Char) : Bool :=
  match cs with
  | a :: rest => isSCh a && decide (2 ≤ leadDigits rest)
  | [] => false

/-- Test for S\d«2,4»E\d«2,4» with nothing after it constrained. -/
def seHeadTok (cs : List Char) : Bool :=
  match cs with
  | a :: rest =>
    isSCh a &&
      (let r := leadDigits rest
       decide (2 ≤ r) && decide (r ≤ 4) &&
         (match rest.drop r with
          | e :: ds => isECh e && decide (2 ≤ leadDigits ds)
          | [] => false))
  | [] => false

/-- The anchored pattern (?i)^(.+?)\.?TOK…: the lazy group takes the
shortest non-empty prefix (of non-newline chars) after which, optionally
skipping one literal dot, tok matches.  Returns the group. -/
def lpScan (tok : List Char → Bool) (acc : List Char) : List Char → Option (List Char)
  | [] => none
  | c :: rest =>
    if decide (c = '\n') then none
    else
      let acc2 := acc ++ [c]
      if (match rest with | '.' :: r2 => tok r2 | _ => false) || tok rest then
        some acc2
      else lpScan tok acc2 rest

/-- isValidEpisodeFileName (main.go): the normalized prefix of the file name
before its SxxExx token must equal the normalized prefix of the season pack
name before its Sxx token. -/
def isValidEpisodeFileName (fileName seasonPackName : String) : Bool :=
  match lpScan seasonHeadTok [] seasonPackName.data with
  | none => false
  | some sp =>
    match lpScan seHeadTok [] fileName.data with
    | none => false
    | some ep => normalizeChars sp == normalizeChars ep

/-! ## generateEpisodeReleaseName -/

/-- Case-insensitive strip of a (lower-case) literal pattern. -/
def ciStrip : List Char → List Char → Option (List Char)
  | [], rest => some rest
  | _ :: _, [] => none
  | p :: ps, c :: rest => if Char.toLower c = p then ciStrip ps rest else none

/-- Length of a (COMPLETE|iNCOMPLETE) alternation match starting here,
with its trailing \b.  The alternatives differ in their first letter, so
trying COMPLETE first is exhaustive. -/
def complLenAt (cs : List Char) : Option Nat :=
  match ciStrip "complete".data cs with
  | some rest => if boundaryAfter rest then some 8 else none
  | none =>
    match ciStrip "incomplete".data cs with
    | some rest => if boundaryAfter rest then some 10 else none
    | none => none

/-- ReplaceAllString of (?i)\b(COMPLETE|iNCOMPLETE)\b with the empty string:
scan left to right tracking the word-ness of the previous char; on a match
drop its characters (skip counts the remaining ones) and keep scanning
after it. -/
def rmComplAux : Nat → Bool → List Char → List Char
  | _, _, [] => []
  | Nat.succ n, _, _ :: rest => rmComplAux n true rest
  | 0, pw, c :: rest =>
    if pw then c :: rmComplAux 0 (isWordCh c) rest
    else
      match complLenAt (c :: rest) with
      | some n => rmComplAux (n - 1) true rest
      | none => c :: rmComplAux 0 (isWordCh c) rest

/-- strings.TrimSpace. -/
def goTrimSpace (cs : List Char) : List Char :=
  ((cs.dropWhile isSpaceCh).reverse.dropWhile isSpaceCh).reverse

/-- ReplaceAllStringFunc of (?i)\bS(\d«2,4»)\b: every matched token is
rewritten to a capital S, its digit run, and the episode token ep. -/
def replSAux (ep : List Char) : Nat → Bool → List Char → List Char
  | _, _, [] => []
  | Nat.succ n, _, _ :: rest => replSAux ep n true rest
  | 0, pw, c :: rest =>
    if pw then c :: replSAux ep 0 (isWordCh c) rest
    else if isSCh c && seasonDigitsTok rest then
      let ds := rest.takeWhile isDigitCh
      'S' :: (ds ++ ep ++ replSAux ep ds.length true rest)
    else c :: replSAux ep 0 (isWordCh c) rest

/-- generateEpisodeReleaseName (main.go): drop COMPLETE/iNCOMPLETE tokens,
trim spaces, then rewrite every standalone Sxx token to SxxEyy. -/
def generateEpisodeReleaseName (seasonPackName episodeNum : String) : String :=
  ⟨replSAux episodeNum.data 0 false
    (goTrimSpace (rmComplAux 0 false seasonPackName.data))⟩

/-! ## File-system model

Clean absolute paths are modelled as their component lists; filepath.Join
appends a component, filepath.Dir drops the last one, filepath.Base reads
it, and filepath.Rel of a path lying under a base directory drops the
base's components (the scanner only relativizes paths inside the directory
it walks).  A node carries the flags needed to model the I/O failures the
source can meet: readOk is whether os.ReadDir of a directory succeeds,
infoOk whether stat/Info on a file succeeds. -/

abbrev GoPath := List String

/-- filepath.Base of a component path. -/
def pbase (p : GoPath) : String := p.getLast?.getD ""

/-- A file-system node. -/
inductive FNode where
  | file (name : String) (size : Int) (infoOk : Bool)
  | dir (name : String) (readOk : Bool) (children : List FNode)

/-- Name of a node. -/
def fname : FNode → String
  | .file n _ _ => n
  | .dir n _ _ => n

/-- Resolve a path below a node; descending into a directory requires it to
be listable. -/
def resolve : FNode → GoPath → Option FNode
  | node, [] => some node
  | .file _ _ _, _ :: _ => none
  | .dir _ ok cs, c :: rest =>
    if ok then
      match cs.find? (fun ch => fname ch = c) with
      | some ch => resolve ch rest
      | none => none
    else none

/-- os.ReadDir: the children of a listable directory. -/
def readDir (fs : FNode) (dir : GoPath) : Option (List FNode) :=
  match resolve fs dir with
  | some (.dir _ true cs) => some cs
  | _ => none

/-- os.Stat on a file path: its size when the file exists and its metadata
is readable (directory arguments do not occur in the embedded code). -/
def statSize (fs : FNode) (p : GoPath) : Option Int :=
  match resolve fs p with
  | some (.file _ sz ok) => if ok then some sz else none
  | _ => none

/-! ## Extension tables (main.go) -/

/-- mediaInfoExtensions (video and audio). -/
def mediaInfoExtensions : List String :=
  [".mkv", ".mp4", ".avi", ".mov", ".wmv", ".flv", ".mpeg", ".mpg", ".webm",
   ".m4v", ".divx", ".xvid", ".mp3", ".aac", ".flac", ".wav", ".ogg",
   ".opus", ".m4a", ".mka", ".wma", ".alac", ".dts", ".dtshd", ".ac3",
   ".eac3", ".ec3", ".m4b"]

/-- The audio extension table of isAudioExtension. -/
def audioExtensions : List String :=
  [".mp3", ".aac", ".flac", ".wav", ".ogg", ".opus", ".m4a", ".mka", ".wma",
   ".alac", ".dts", ".dtshd", ".ac3", ".eac3", ".ec3", ".m4b"]

/-- isAudioExtension (main.go). -/
def isAudioExtension (ext : String) : Bool := audioExtensions.contains ext

/-- strings.ToLower, ASCII model. -/
def goToLower (s : String) : String := ⟨s.data.map Char.toLower⟩

/-- Split a file name into the part before its last dot and its
filepath.Ext extension (empty when there is no dot). -/
def extSplit (cs : List Char) : List Char × List Char :=
  let r := cs.reverse
  let a := r.takeWhile (fun c => !decide (c = '.'))
  let b := r.dropWhile (fun c => !decide (c = '.'))
  match b with
  | [] => (cs, [])
  | _ :: bs => (bs.reverse, '.' :: a.reverse)

/-- filepath.Ext. -/
def goExt (s : String) : String := ⟨(extSplit s.data).2⟩

/-- strings.TrimSuffix of a name by its own filepath.Ext. -/
def baseNoExt (s : String) : String := ⟨(extSplit s.data).1⟩

/-- The video-file test of the walk callbacks: extension in the media table
and not an audio extension. -/
def isVideoName (n : String) : Bool :=
  let ext := goToLower (goExt n)
  mediaInfoExtensions.contains ext && !isAudioExtension ext

/-! ## Season-pack data structures (main.go) -/

/-- VideoFile (main.go). -/
structure VideoFile where
  Path : GoPath
  Dir : GoPath
  Name : String
deriving DecidableEq

/-- EpisodeInfo (main.go); an empty NFOFile path stands for the empty
string. -/
structure EpisodeInfo where
  videoFile : VideoFile
  EpisodeNum : String
  ReleaseName : String
  NFOFile : GoPath
deriving DecidableEq

/-- FileListEntry (main.go). -/
structure FileListEntry where
  FilePath : String
  FileSizeBytes : Int
deriving DecidableEq

/-- filepath.Rel from a base the path lies under, in forward-slash form
(filepath.ToSlash). -/
def relSlash (base p : GoPath) : String :=
  String.intercalate "/" (p.drop base.length)

/-! ## findAllVideoFiles (main.go)

filepath.WalkDir with a callback that propagates every error: an
unlistable directory anywhere aborts the whole walk with the error.  The
walk carries each node's own absolute path. -/

mutual
/-- The walk of findAllVideoFiles over one node. -/
def walkVideos : GoPath → FNode → Except Unit (List VideoFile)
  | path, .file _ _ _ =>
    .ok (if isVideoName (pbase path) then
      [{ Path := path, Dir := path.dropLast, Name := pbase path }] else [])
  | path, .dir _ ok cs =>
    if ok then walkVideosList path cs else .error ()

/-- The walk of findAllVideoFiles over a directory's children, aborting at
the first error. -/
def walkVideosList : GoPath → List FNode → Except Unit (List VideoFile)
  | _, [] => .ok []
  | path, c :: cs => do
    let l1 ← walkVideos (path ++ [fname c]) c
    let l2 ← walkVideosList path cs
    .ok (l1 ++ l2)
end

/-- findAllVideoFiles (main.go). -/
def findAllVideoFiles (fs : FNode) (dir : GoPath) : Except Unit (List VideoFile) :=
  match resolve fs dir with
  | none => .error ()
  | some n => walkVideos dir n

/-- isSeasonPackFallback (main.go): at least three video files; a failed
scan counts as not a pack. -/
def isSeasonPackFallback (fs : FNode) (finalDir : GoPath) : Bool :=
  match findAllVideoFiles fs finalDir with
  | .error _ => false
  | .ok videoFiles => decide (3 ≤ videoFiles.length)

/-! ## createFileList (main.go) -/

mutual
/-- The walk of createFileList over one node; a file whose Info fails
aborts the walk. -/
def walkEntries : GoPath → GoPath → FNode → Except Unit (List FileListEntry)
  | base, path, .file _ sz ok =>
    if ok then .ok [{ FilePath := relSlash base path, FileSizeBytes := sz }]
    else .error ()
  | base, path, .dir _ ok cs =>
    if ok then walkEntriesList base path cs else .error ()

/-- The walk of createFileList over a directory's children. -/
def walkEntriesList : GoPath → GoPath → List FNode → Except Unit (List FileListEntry)
  | _, _, [] => .ok []
  | base, path, c :: cs => do
    let l1 ← walkEntries base (path ++ [fname c]) c
    let l2 ← walkEntriesList base path cs
    .ok (l1 ++ l2)
end

/-- createFileList (main.go); the releaseName argument is unused, as in the
source. -/
def createFileList (fs : FNode) (dir : GoPath) (_releaseName : String) :
    Except Unit (List FileListEntry) :=
  match resolve fs dir with
  | none => .error ()
  | some n => walkEntries dir dir n

/-! ## NFO lookups used by extractEpisodeInfo -/

/-- Character-list suffix test for file names. -/
def chEndsWith (cs suffix : List Char) : Bool := suffix.isSuffixOf cs

/-- findNFOInDirectory (main.go): first non-directory child whose
lower-cased name ends in .nfo; empty path on a read error or no hit. -/
def findNFOInDirectory (fs : FNode) (dir : GoPath) : GoPath :=
  match readDir fs dir with
  | none => []
  | some entries =>
    match entries.find? (fun ent =>
        match ent with
        | .file n _ _ => chEndsWith (goToLower n).data ".nfo".data
        | .dir _ _ _ => false) with
    | some ent => dir ++ [fname ent]
    | none => []

/-! ## extractEpisodeInfo (main.go) -/

/-- extractEpisodeInfo: derive the episode identity of one video file of a
pack, as described in the source.  A rejected candidate keeps an empty
ReleaseName. -/
def extractEpisodeInfo (fs : FNode) (videoFile : VideoFile)
    (seasonPackName : String) (generalNFO : GoPath) : EpisodeInfo :=
  let parentDir := pbase videoFile.Dir
  if goEqualFold parentDir seasonPackName then
    let fileName := baseNoExt videoFile.Name
    match seFind fileName.data with
    | some (_sd, ed) =>
      let epn : String := "E" ++ ⟨ed⟩
      if isValidEpisodeFileName fileName seasonPackName &&
          !isCompletelyLowercase fileName then
        let nfoPath := videoFile.Dir ++ [fileName ++ ".nfo"]
        let nfo0 := if (statSize fs nfoPath).isSome then nfoPath else []
        let nfo := if nfo0 = [] ∧ epn = "E01" ∧ generalNFO ≠ [] then
          generalNFO else nfo0
        { videoFile := videoFile, EpisodeNum := epn, ReleaseName := fileName,
          NFOFile := nfo }
      else
        let nfo := if epn = "E01" ∧ generalNFO ≠ [] then generalNFO else []
        { videoFile := videoFile, EpisodeNum := epn,
          ReleaseName := generateEpisodeReleaseName seasonPackName epn,
          NFOFile := nfo }
    | none =>
      match isoFind fileName.data with
      | some date =>
        let nfoPath := videoFile.Dir ++ [fileName ++ ".nfo"]
        let nfo0 := if (statSize fs nfoPath).isSome then nfoPath else []
        let nfo := if nfo0 = [] ∧ generalNFO ≠ [] then generalNFO else nfo0
        { videoFile := videoFile, EpisodeNum := ⟨date⟩, ReleaseName := fileName,
          NFOFile := nfo }
      | none =>
        { videoFile := videoFile, EpisodeNum := "", ReleaseName := "",
          NFOFile := [] }
  else
    match seFind parentDir.data with
    | some (_sd, ed) =>
      let epn : String := "E" ++ ⟨ed⟩
      if isValidEpisodeFileName parentDir seasonPackName &&
          isCompletelyLowercase parentDir then
        { videoFile := videoFile, EpisodeNum := epn, ReleaseName := "",
          NFOFile := [] }
      else
        let nfo0 := findNFOInDirectory fs videoFile.Dir
        let nfo := if nfo0 = [] ∧ epn = "E01" ∧ generalNFO ≠ [] then
          generalNFO else nfo0
        { videoFile := videoFile, EpisodeNum := epn, ReleaseName := parentDir,
          NFOFile := nfo }
    | none =>
      match isoFind parentDir.data with
      | some date =>
        let nfo0 := findNFOInDirectory fs videoFile.Dir
        let nfo := if nfo0 = [] ∧ generalNFO ≠ [] then generalNFO else nfo0
        { videoFile := videoFile, EpisodeNum := ⟨date⟩,
          ReleaseName := parentDir, NFOFile := nfo }
      | none =>
        { videoFile := videoFile, EpisodeNum := "", ReleaseName := "",
          NFOFile := [] }

/-! ## findRelatedFiles and createEpisodeFileList (main.go) -/

/-- findRelatedFiles: the video file first, then every sibling regular file
whose extracted episode number matches; a failing per-entry Info is
skipped, while a failing stat of the video or ReadDir of the directory is
an error. -/
def findRelatedFiles (fs : FNode) (dir : GoPath) (videoBaseName : String)
    (videoPath : GoPath) : Except Unit (List FileListEntry) :=
  match statSize fs videoPath with
  | none => .error ()
  | some vsz =>
    let first : FileListEntry :=
      { FilePath := relSlash dir videoPath, FileSizeBytes := vsz }
    let episodeNum := extractEpisodeNumber videoBaseName
    if episodeNum = "" then .ok [first]
    else
      match readDir fs dir with
      | none => .error ()
      | some dirEntries =>
        .ok (first :: dirEntries.filterMap (fun ent =>
          match ent with
          | .dir _ _ _ => none
          | .file fileName sz ok =>
            if fileName = pbase videoPath then none
            else if isRelatedFileByEpisode (baseNoExt fileName) episodeNum then
              if ok then
                some { FilePath := relSlash dir (dir ++ [fileName]),
                       FileSizeBytes := sz }
              else none
            else none))

/-- createEpisodeFileList (main.go): count the pack's video files sharing
this episode's directory and choose the list-building strategy. -/
def createEpisodeFileList (fs : FNode) (episodeInfo : EpisodeInfo) :
    Except Unit (List FileListEntry) :=
  let seasonPackDir := episodeInfo.videoFile.Dir.dropLast
  match findAllVideoFiles fs seasonPackDir with
  | .error e => .error e
  | .ok allVideoFiles =>
    let mainDirVideoCount :=
      (allVideoFiles.filter
        (fun vf => decide (vf.Dir = episodeInfo.videoFile.Dir))).length
    if mainDirVideoCount = 0 then
      createFileList fs episodeInfo.videoFile.Dir episodeInfo.ReleaseName
    else if 1 < mainDirVideoCount then
      findRelatedFiles fs episodeInfo.videoFile.Dir
        (baseNoExt episodeInfo.videoFile.Name) episodeInfo.videoFile.Path
    else
      createFileList fs episodeInfo.videoFile.Dir episodeInfo.ReleaseName

/-! ## Claim-side notions

These definitions follow the words of the specification's claims (rather
than the source) and are used to state the claim theorems and the
counterexamples to the claims that fail. -/

/-- Claim side: the name contains at least one (ASCII) upper-case letter. -/
def containsUpper (s : String) : Bool := s.data.any isUpperCh

/-- Claim side: the name contains a token of the form S20 followed by two
digits, with a word boundary before the S but no constraint after the
digits (the claim asserts the year rule fires even when an episode token
follows directly). -/
def containsS20Token (pw : Bool) (cs : List Char) : Bool :=
  match cs with
  | [] => false
  | c :: rest =>
    (!pw && isSCh c &&
      (match rest with
       | a :: b :: x :: y :: _ =>
         decide (a = '2') && decide (b = '0') && isDigitCh x && isDigitCh y
       | _ => false)) ||
    containsS20Token (isWordCh c) rest

mutual
/-- Claim side: number of video files (video extension, not audio) found
anywhere in a tree. -/
def countVideoNodes : FNode → Nat
  | .file n _ _ => if isVideoName n then 1 else 0
  | .dir _ _ cs => countVideoNodesList cs

/-- countVideoNodes over a list of children. -/
def countVideoNodesList : List FNode → Nat
  | [] => 0
  | c :: cs => countVideoNodes c + countVideoNodesList cs
end

mutual
/-- Some directory reachable in the tree (including the root itself) is
unlistable. -/
def hasUnreadable : FNode → Bool
  | .file _ _ _ => false
  | .dir _ ok cs => !ok || hasUnreadableList cs

/-- hasUnreadable over a list of children. -/
def hasUnreadableList : List FNode → Bool
  | [] => false
  | c :: cs => hasUnreadable c || hasUnreadableList cs
end

mutual
/-- The video files an error-free walk reports, with their paths. -/
def collectVideos : GoPath → FNode → List VideoFile
  | path, .file _ _ _ =>
    if isVideoName (pbase path) then
      [{ Path := path, Dir := path.dropLast, Name := pbase path }] else []
  | path, .dir _ _ cs => collectVideosList path cs

/-- collectVideos over a list of children. -/
def collectVideosList : GoPath → List FNode → List VideoFile
  | _, [] => []
  | path, c :: cs =>
    collectVideos (path ++ [fname c]) c ++ collectVideosList path cs
end

/-- Claim side: the scan aborts, i.e. the root does not resolve or some
reachable directory is unlistable. -/
def walkHitsError (fs : FNode) (dir : GoPath) : Bool :=
  match resolve fs dir with
  | none => true
  | some n => hasUnreadable n

/-- Word-ness of the character preceding the end of cs (pw for an empty
cs): the state a \b-tracking scan is in after reading cs. -/
def pwEnd (pw : Bool) (cs : List Char) : Bool :=
  cs.foldl (fun _ c => isWordCh c) pw

/-- Claim side (C7): scanning left to right with \b state pw, a standalone
season token is reached before any position where the episode-number
pattern (SxxEyy or a bare Eyy) matches.  This is the exact condition under
which the leftmost episode-number match of the synthesized release name is
the rewritten first season token. -/
def noEpBeforeSeason (pw : Bool) : List Char → Bool
  | [] => false
  | c :: rest =>
    if !pw && isSCh c && seasonDigitsTok rest then true
    else if (epNumMatchAt (c :: rest)).isSome then false
    else noEpBeforeSeason (isWordCh c) rest

mutual
/-- Some entry reachable in the tree fails the createFileList walk: an
unlistable directory or a file whose metadata read fails. -/
def hasBadEntry : FNode → Bool
  | .file _ _ ok => !ok
  | .dir _ ok cs => !ok || hasBadEntryList cs

/-- hasBadEntry over a list of children. -/
def hasBadEntryList : List FNode → Bool
  | [] => false
  | c :: cs => hasBadEntry c || hasBadEntryList cs
end

mutual
/-- The entries an error-free createFileList walk reports. -/
def collectEntries : GoPath → GoPath → FNode → List FileListEntry
  | base, path, .file _ sz _ =>
    [{ FilePath := relSlash base path, FileSizeBytes := sz }]
  | base, path, .dir _ _ cs => collectEntriesList base path cs

/-- collectEntries over a list of children. -/
def collectEntriesList : GoPath → GoPath → List FNode → List FileListEntry
  | _, _, [] => []
  | base, path, c :: cs =>
    collectEntries base (path ++ [fname c]) c ++ collectEntriesList base path cs
end

/-- Claim side: the createFileList scan aborts, i.e. the root does not
resolve or some reachable entry is bad. -/
def fileListHitsError (fs : FNode) (dir : GoPath) : Bool :=
  match resolve fs dir with
  | none => true
  | some n => hasBadEntry n

/-- Claim side: an ASCII letter. -/
def isAsciiLetter (c : Char) : Bool := isLowerCh c || isUpperCh c

/-! ## Concrete inputs used in witnesses and counterexamples -/

/-- Children of the example season-pack directory. -/
def exPackChildren : List FNode :=
  [.file "Show.Name.S01E01.1080p-GRP.mkv" 100 true,
   .file "Show.Name.S01E02.1080p-GRP.mkv" 200 true,
   .file "Show.Name.S01E03.1080p-GRP.mkv" 300 true,
   .file "Show.Name.S01E01.1080p-GRP.nfo" 5 true]

/-- A well-formed shared-directory season pack with three episodes and one
episode NFO. -/
def exPack : FNode := .dir "Show.Name.S01.1080p-GRP" true exPackChildren

/-- Root holding exPack. -/
def exTree : FNode := .dir "" true [exPack]

/-- A release directory holding only two video files. -/
def exTwoPack : FNode :=
  .dir "Some.Other.Release" true
    [.file "Some.Other.Release.part1.mkv" 10 true,
     .file "Some.Other.Release.part2.mkv" 20 true]

/-- Root holding exTwoPack. -/
def exTwoTree : FNode := .dir "" true [exTwoPack]

/-- A season pack with four readable video files and one unlistable
subdirectory. -/
def exBadPack : FNode :=
  .dir "Pack.S01" true
    [.file "Pack.S01E01.mkv" 10 true,
     .dir "Subs" false [],
     .file "Pack.S01E02.mkv" 20 true,
     .file "Pack.S01E03.mkv" 30 true,
     .file "Pack.S01E04.mkv" 40 true]

/-- Root holding exBadPack. -/
def exBadTree : FNode := .dir "" true [exBadPack]

/-- A listable release directory holding two readable video files and one
file whose metadata read fails. -/
def exInfoBadPack : FNode :=
  .dir "Pack2.S01" true
    [.file "Pack2.S01E01.mkv" 10 true,
     .file "broken.nfo" 7 false,
     .file "Pack2.S01E02.mkv" 20 true]

/-- Root holding exInfoBadPack. -/
def exInfoBadTree : FNode := .dir "" true [exInfoBadPack]

/-- The video file of the rejected all-lower-case subdirectory example. -/
def exRejVf : VideoFile :=
  ⟨["Show.Name.S01.1080p-GRP", "show.name.s01e03.1080p-grp", "episode.mkv"],
   ["Show.Name.S01.1080p-GRP", "show.name.s01e03.1080p-grp"], "episode.mkv"⟩

/-- The unit extractEpisodeInfo returns for the rejected subdirectory. -/
def exRejResult : EpisodeInfo :=
  extractEpisodeInfo (.dir "" true []) exRejVf "Show.Name.S01.1080p-GRP" []

/-- The video files of the example pack as collected by the scan. -/
def exAllV : List VideoFile :=
  [⟨["Show.Name.S01.1080p-GRP", "Show.Name.S01E01.1080p-GRP.mkv"],
    ["Show.Name.S01.1080p-GRP"], "Show.Name.S01E01.1080p-GRP.mkv"⟩,
   ⟨["Show.Name.S01.1080p-GRP", "Show.Name.S01E02.1080p-GRP.mkv"],
    ["Show.Name.S01.1080p-GRP"], "Show.Name.S01E02.1080p-GRP.mkv"⟩,
   ⟨["Show.Name.S01.1080p-GRP", "Show.Name.S01E03.1080p-GRP.mkv"],
    ["Show.Name.S01.1080p-GRP"], "Show.Name.S01E03.1080p-GRP.mkv"⟩]

/-- The E01 episode unit of the example pack. -/
def exEp : EpisodeInfo :=
  ⟨⟨["Show.Name.S01.1080p-GRP", "Show.Name.S01E01.1080p-GRP.mkv"],
    ["Show.Name.S01.1080p-GRP"], "Show.Name.S01E01.1080p-GRP.mkv"⟩,
   "E01", "Show.Name.S01E01.1080p-GRP",
   ["Show.Name.S01.1080p-GRP", "Show.Name.S01E01.1080p-GRP.nfo"]⟩

/-- Children of the C6 counterexample pack: two episodes plus a sample file
whose name has a bare E05 token but no SxxEyy or date token. -/
def exPack2Children : List FNode :=
  [.file "Show.Name.S01E05.1080p-GRP.mkv" 100 true,
   .file "Show.Name.S01E06.1080p-GRP.mkv" 200 true,
   .file "Show.Name.E05.Sample.nfo" 5 true]

/-- The C6 counterexample pack directory. -/
def exPack2 : FNode := .dir "Show.Name.S01.1080p-GRP" true exPack2Children

/-- Root holding exPack2. -/
def exTree2 : FNode := .dir "" true [exPack2]

/-- The E05 video file of the C6 counterexample pack. -/
def exVf2 : VideoFile :=
  ⟨["Show.Name.S01.1080p-GRP", "Show.Name.S01E05.1080p-GRP.mkv"],
   ["Show.Name.S01.1080p-GRP"], "Show.Name.S01E05.1080p-GRP.mkv"⟩

/-- The E05 unit extractEpisodeInfo produces in the C6 counterexample
pack. -/
def exEp2 : EpisodeInfo := ⟨exVf2, "E05", "Show.Name.S01E05.1080p-GRP", []⟩

/-! ## Characterization of the findAllVideoFiles walk -/

mutual
/-- The walk of findAllVideoFiles aborts exactly on trees with an
unlistable directory and otherwise reports the collected video files. -/
theorem walkVideos_char (path : GoPath) (n : FNode) :
    walkVideos path n =
      if hasUnreadable n then .error () else .ok (collectVideos path n) := by
  cases n with
  | file name sz ok => simp [walkVideos, hasUnreadable, collectVideos]
  | dir name ok cs =>
    cases ok with
    | false => simp [walkVideos, hasUnreadable]
    | true =>
      simp only [walkVideos, hasUnreadable, collectVideos, Bool.not_true,
        Bool.false_or]
      exact walkVideosList_char path cs

/-- List version of walkVideos_char. -/
theorem walkVideosList_char (path : GoPath) (cs : List FNode) :
    walkVideosList path cs =
      if hasUnreadableList cs then .error ()
      else .ok (collectVideosList path cs) := by
  cases cs with
  | nil => simp [walkVideosList, hasUnreadableList, collectVideosList]
  | cons c cs =>
    rw [walkVideosList, walkVideos_char (path ++ [fname c]) c,
      walkVideosList_char path cs]
    cases hc : hasUnreadable c with
    | true => simp only [hasUnreadableList, hc, Bool.true_or, if_true]; rfl
    | false =>
      cases hcs : hasUnreadableList cs with
      | true => simp only [hasUnreadableList, hc, hcs, Bool.false_or, if_true]; rfl
      | false =>
        simp only [hasUnreadableList, hc, hcs, Bool.false_or, if_false,
          collectVideosList]
        rfl
end

mutual
/-- The walk of createFileList aborts exactly on trees with an unlistable
directory or a file with failing metadata, and otherwise reports the
collected entries. -/
theorem walkEntries_char (base path : GoPath) (n : FNode) :
    walkEntries base path n =
      if hasBadEntry n then .error ()
      else .ok (collectEntries base path n) := by
  cases n with
  | file name sz ok =>
    cases ok with
    | false => simp [walkEntries, hasBadEntry]
    | true => simp [walkEntries, hasBadEntry, collectEntries]
  | dir name ok cs =>
    cases ok with
    | false => simp [walkEntries, hasBadEntry]
    | true =>
      simp only [walkEntries, hasBadEntry, collectEntries, Bool.not_true,
        Bool.false_or]
      exact walkEntriesList_char base path cs

/-- List version of walkEntries_char. -/
theorem walkEntriesList_char (base path : GoPath) (cs : List FNode) :
    walkEntriesList base path cs =
      if hasBadEntryList cs then .error ()
      else .ok (collectEntriesList base path cs) := by
  cases cs with
  | nil => simp [walkEntriesList, hasBadEntryList, collectEntriesList]
  | cons c cs =>
    rw [walkEntriesList, walkEntries_char base (path ++ [fname c]) c,
      walkEntriesList_char base path cs]
    cases hc : hasBadEntry c with
    | true => simp only [hasBadEntryList, hc, Bool.true_or, if_true]; rfl
    | false =>
      cases hcs : hasBadEntryList cs with
      | true =>
        simp only [hasBadEntryList, hc, hcs, Bool.false_or, if_true]; rfl
      | false =>
        simp only [hasBadEntryList, hc, hcs, Bool.false_or, if_false,
          collectEntriesList]
        rfl
end

mutual
/-- On name-consistent paths the collected video files are counted by
countVideoNodes. -/
theorem collectVideos_count (path : GoPath) (n : FNode)
    (h : pbase path = fname n) :
    (collectVideos path n).length = countVideoNodes n := by
  cases n with
  | file name sz ok =>
    simp only [fname] at h
    simp only [collectVideos, countVideoNodes, h]
    cases hv : isVideoName name <;> simp [hv]
  | dir name ok cs =>
    simp only [collectVideos, countVideoNodes]
    exact collectVideosList_count path cs

/-- List version of collectVideos_count. -/
theorem collectVideosList_count (path : GoPath) (cs : List FNode) :
    (collectVideosList path cs).length = countVideoNodesList cs := by
  cases cs with
  | nil => rfl
  | cons c cs =>
    simp only [collectVideosList, countVideoNodesList, List.length_append]
    rw [collectVideos_count (path ++ [fname c]) c (by
        simp [pbase, List.getLast?_concat]),
      collectVideosList_count path cs]
end

/-! ## Claim C4 -/

/-- C4: for an error-free directory tree, the fallback pack classifier
returns true exactly when at least three video files (video extensions,
audio excluded) are found anywhere in the tree. -/
theorem claim_C4_fallback_iff_three_videos (fs : FNode) (dir : GoPath)
    (n : FNode) (hres : resolve fs dir = some n)
    (hok : hasUnreadable n = false) (hb : pbase dir = fname n) :
    isSeasonPackFallback fs dir = true ↔ 3 ≤ countVideoNodes n := by
  unfold isSeasonPackFallback findAllVideoFiles
  rw [hres]
  simp only [walkVideos_char, hok]
  simp [collectVideos_count dir n hb]

/-- Witness for C4: the three-episode pack is classified as a pack, the
two-file release is not. -/
theorem claim_C4_witness :
    (resolve exTree ["Show.Name.S01.1080p-GRP"] = some exPack ∧
      hasUnreadable exPack = false ∧
      pbase ["Show.Name.S01.1080p-GRP"] = fname exPack ∧
      (isSeasonPackFallback exTree ["Show.Name.S01.1080p-GRP"] = true ↔
        3 ≤ countVideoNodes exPack)) ∧
    (resolve exTwoTree ["Some.Other.Release"] = some exTwoPack ∧
      (isSeasonPackFallback exTwoTree ["Some.Other.Release"] = true ↔
        3 ≤ countVideoNodes exTwoPack)) :=
  ⟨⟨rfl, rfl, rfl,
    claim_C4_fallback_iff_three_videos exTree _ exPack rfl rfl rfl⟩,
   ⟨rfl,
    claim_C4_fallback_iff_three_videos exTwoTree _ exTwoPack rfl rfl rfl⟩⟩

/-! ## Claim C8 -/

/-- C8 counterexample: the root directory opens fine and holds four
readable video files, but a single unlistable descendant subdirectory
makes the whole findAllVideoFiles scan return an error (nothing is
skipped) and the fallback classifier answer false; likewise, a single
descendant file whose metadata read fails aborts createFileList of an
otherwise readable directory. -/
theorem claim_C8_counterexample :
    resolve exBadTree ["Pack.S01"] = some exBadPack ∧
    countVideoNodes exBadPack = 4 ∧
    findAllVideoFiles exBadTree ["Pack.S01"] = .error () ∧
    isSeasonPackFallback exBadTree ["Pack.S01"] = false ∧
    resolve exInfoBadTree ["Pack2.S01"] = some exInfoBadPack ∧
    createFileList exInfoBadTree ["Pack2.S01"] "Pack2.S01" = .error () :=
  ⟨rfl, rfl, rfl, rfl, rfl, rfl⟩

/-- C8 amended: an I/O error on any entry of the walk, root or descendant,
aborts the scan instead of being skipped.  findAllVideoFiles (whose
callback never reads file metadata) fails exactly when the root does not
resolve or some reachable directory is unlistable; createFileList fails
exactly when, in addition, some reachable file's metadata read fails. -/
theorem claim_C8_amended_walk_aborts (fs : FNode) (dir : GoPath)
    (releaseName : String) :
    (findAllVideoFiles fs dir = .error () ↔ walkHitsError fs dir = true) ∧
    (createFileList fs dir releaseName = .error () ↔
      fileListHitsError fs dir = true) := by
  constructor
  · unfold findAllVideoFiles walkHitsError
    cases hres : resolve fs dir with
    | none => simp
    | some n =>
      simp only [walkVideos_char]
      cases h : hasUnreadable n <;> simp [h]
  · unfold createFileList fileListHitsError
    cases hres : resolve fs dir with
    | none => simp
    | some n =>
      simp only [walkEntries_char]
      cases h : hasBadEntry n <;> simp [h]

/-! ## Claim C2 -/

/-- C2 counterexample: Show.S01.S02E03 contains a standalone season token
S01 (word-bounded, so not followed by an episode token), yet isSeasonPack
returns false, because the episode-token exclusion looks at the whole name
and S02E03 appears elsewhere in it. -/
theorem claim_C2_counterexample :
    hasSeasonTok false "Show.S01.S02E03".data = true ∧
    isSeasonPack "Show.S01.S02E03" = false := by decide

/-- C2 amended: a release name containing a standalone season token is
detected as a pack provided no word-bounded SxxExx episode token occurs
anywhere in the name; S01E05 itself is not detected. -/
theorem claim_C2_amended_pack_detection (s : String)
    (h1 : hasSeasonTok false s.data = true)
    (h2 : hasEpisodeTok false s.data = false) :
    isSeasonPack s = true ∧ isSeasonPack "S01E05" = false := by
  refine ⟨?_, by decide⟩
  unfold isSeasonPack
  rw [h1, h2]
  rfl

/-- Witness for the amended C2 at a concrete season-pack name. -/
theorem claim_C2_witness :
    hasSeasonTok false "Show.Name.S01.1080p-GRP".data = true ∧
    hasEpisodeTok false "Show.Name.S01.1080p-GRP".data = false ∧
    (isSeasonPack "Show.Name.S01.1080p-GRP" = true ∧
      isSeasonPack "S01E05" = false) :=
  ⟨by decide, by decide,
   claim_C2_amended_pack_detection _ (by decide) (by decide)⟩

/-! ## Claim C3 -/

/-- C3 counterexample: Show.S2024E01 contains S20 followed by two digits,
but isSeasonPack returns false — the year pattern carries a trailing word
boundary, so it does not fire when an episode token follows the year
directly, contradicting the claimed unconditional detection. -/
theorem claim_C3_counterexample :
    containsS20Token false "Show.S2024E01".data = true ∧
    isSeasonPack "Show.S2024E01" = false := by decide

/-- C3 amended: the year rule fires only for word-bounded S20xx tokens
(not followed by a word character such as an episode token); whenever the
bounded token occurs, isSeasonPack returns true unconditionally. -/
theorem claim_C3_amended_year_token (s : String)
    (h : hasIsoYearTok false s.data = true) :
    isSeasonPack s = true := by
  unfold isSeasonPack
  rw [h]
  simp

/-- Witness for the amended C3: the year token makes a name a pack even
though an SxxExx token elsewhere blocks the first rule. -/
theorem claim_C3_witness :
    hasIsoYearTok false "Show.S2024.S01E05".data = true ∧
    isSeasonPack "Show.S2024.S01E05" = true :=
  ⟨by decide, claim_C3_amended_year_token _ (by decide)⟩

/-! ## Claim C10 -/

/-- C10: a string with no ASCII letter is never judged completely
lowercase, and in general the all-lower-case rejection test holds exactly
when some lower-case letter occurs and no upper-case letter does. -/
theorem claim_C10_letterless_not_lowercase (s : String)
    (h : ∀ c ∈ s.data, isAsciiLetter c = false) :
    isCompletelyLowercase s = false ∧
    ∀ t : String, isCompletelyLowercase t = true ↔
      ((∃ c ∈ t.data, isLowerCh c = true) ∧ ∀ c ∈ t.data, isUpperCh c = false) := by
  constructor
  · unfold isCompletelyLowercase
    have hl : s.data.any isLowerCh = false := by
      rw [List.any_eq_false]
      intro c hc
      have := h c hc
      simp [isAsciiLetter] at this
      simp [this.1]
    rw [hl, Bool.and_false]
  · intro t
    unfold isCompletelyLowercase
    rw [Bool.and_eq_true, Bool.not_eq_true', List.any_eq_true,
      List.any_eq_false]
    constructor
    · rintro ⟨hu, c, hc, hlc⟩
      exact ⟨⟨c, hc, hlc⟩, fun d hd => by
        have := hu d hd
        simpa using this⟩
    · rintro ⟨⟨c, hc, hlc⟩, hu⟩
      exact ⟨fun d hd => by simp [hu d hd], c, hc, hlc⟩

/-- Witness for C10 at a letterless name. -/
theorem claim_C10_witness :
    (∀ c ∈ "2024.01.05".data, isAsciiLetter c = false) ∧
    isCompletelyLowercase "2024.01.05" = false :=
  ⟨by decide,
   (claim_C10_letterless_not_lowercase "2024.01.05" (by decide)).1⟩

/-! ## Lemmas about the pattern matchers -/

/-- A string whose length grew by an E prefix is not empty. -/
theorem eAppend_ne_empty (s : String) : "E" ++ s ≠ "" := by
  intro h
  have h2 := congrArg String.length h
  rw [String.length_append] at h2
  have e1 : ("E" : String).length = 1 := rfl
  have e0 : ("" : String).length = 0 := rfl
  rw [e1, e0] at h2
  omega

/-- An ISO-date match is never the empty text. -/
theorem isoMatchAt_ne_nil (cs : List Char) (d : List Char)
    (h : isoMatchAt cs = some d) : d ≠ [] := by
  unfold isoMatchAt at h
  split at h
  · split at h
    · cases h; simp
    · exact absurd h (by simp)
  · exact absurd h (by simp)

/-- The leftmost ISO-date match is never the empty text. -/
theorem isoFind_ne_nil : ∀ cs d, isoFind cs = some d → d ≠ []
  | [], _, h => by simp [isoFind] at h
  | c :: rest, d, h => by
    unfold isoFind at h
    cases hm : isoMatchAt (c :: rest) with
    | some r => rw [hm] at h; cases h; exact isoMatchAt_ne_nil _ _ hm
    | none => rw [hm] at h; exact isoFind_ne_nil rest d h

/-- A position match of the SxxEyy pattern starts at an S. -/
theorem seMatchAt_isS (c : Char) (rest : List Char) (r : List Char × List Char)
    (h : seMatchAt (c :: rest) = some r) : isSCh c = true := by
  cases hc : isSCh c with
  | true => rfl
  | false => rw [seMatchAt, hc] at h; simp at h

/-- A string with an SxxEyy match contains the letter S in some case. -/
theorem seFind_any_isS : ∀ cs r, seFind cs = some r → cs.any isSCh = true
  | [], _, h => by simp [seFind] at h
  | c :: rest, r, h => by
    unfold seFind at h
    cases hm : seMatchAt (c :: rest) with
    | some p =>
      rw [List.any_cons, seMatchAt_isS c rest p hm, Bool.true_or]
    | none =>
      rw [hm] at h
      rw [List.any_cons, seFind_any_isS rest r h, Bool.or_true]

/-- On names containing an S (as every SxxEyy-matching name does), the
all-lower-case test is exactly the absence of upper-case letters. -/
theorem lowercase_eq_not_upper (s : String) (h : s.data.any isSCh = true) :
    isCompletelyLowercase s = !containsUpper s := by
  unfold isCompletelyLowercase containsUpper
  rcases List.any_eq_true.mp h with ⟨c, hc, hS⟩
  have hcs : c = 'S' ∨ c = 's' := by
    simpa [isSCh, decide_eq_true_eq] using hS
  rcases hcs with hc1 | hc1
  · have hu : s.data.any isUpperCh = true :=
      List.any_eq_true.mpr ⟨c, hc, by rw [hc1]; decide⟩
    rw [hu]; rfl
  · have hl : s.data.any isLowerCh = true :=
      List.any_eq_true.mpr ⟨c, hc, by rw [hc1]; decide⟩
    rw [hl]
    cases s.data.any isUpperCh <;> rfl

/-! ## Claim C9 -/

/-- Every outcome of extractEpisodeInfo either is a rejection (empty
release name) or carries a non-empty episode key. -/
theorem extractEpisodeInfo_key_or_reject (fs : FNode) (vf : VideoFile)
    (pack : String) (gnfo : GoPath) :
    (extractEpisodeInfo fs vf pack gnfo).ReleaseName = "" ∨
    (extractEpisodeInfo fs vf pack gnfo).EpisodeNum ≠ "" := by
  unfold extractEpisodeInfo
  cases hq : goEqualFold (pbase vf.Dir) pack <;> simp only [hq]
  case false =>
    cases hm : seFind (pbase vf.Dir).data with
    | some p =>
      obtain ⟨sd, ed⟩ := p
      simp only [hm]
      by_cases hvc : (isValidEpisodeFileName (pbase vf.Dir) pack &&
          isCompletelyLowercase (pbase vf.Dir)) = true
      · simp only [hvc, if_true]
        exact Or.inr (eAppend_ne_empty _)
      · simp only [hvc, if_false]
        exact Or.inr (eAppend_ne_empty _)
    | none =>
      simp only [hm]
      cases hiso : isoFind (pbase vf.Dir).data with
      | some date =>
        simp only [hiso]
        refine Or.inr ?_
        intro hEq
        have hd := isoFind_ne_nil _ _ hiso
        have := congrArg String.data hEq
        simp at this
        exact hd this
      | none => simp only [hiso]; exact Or.inl rfl
  case true =>
    cases hm : seFind (baseNoExt vf.Name).data with
    | some p =>
      obtain ⟨sd, ed⟩ := p
      simp only [hm]
      by_cases hvc : (isValidEpisodeFileName (baseNoExt vf.Name) pack &&
          !isCompletelyLowercase (baseNoExt vf.Name)) = true
      · simp only [hvc, if_true]
        exact Or.inr (eAppend_ne_empty _)
      · simp only [hvc, if_false]
        exact Or.inr (eAppend_ne_empty _)
    | none =>
      simp only [hm]
      cases hiso : isoFind (baseNoExt vf.Name).data with
      | some date =>
        simp only [hiso]
        refine Or.inr ?_
        intro hEq
        have hd := isoFind_ne_nil _ _ hiso
        have := congrArg String.data hEq
        simp at this
        exact hd this
      | none => simp only [hiso]; exact Or.inl rfl

/-- C9: a unit accepted as a valid episode (non-empty release name, hence
eligible for upload) always carries a non-empty episode key. -/
theorem claim_C9_accepted_has_key (fs : FNode) (vf : VideoFile)
    (pack : String) (gnfo : GoPath)
    (h : (extractEpisodeInfo fs vf pack gnfo).ReleaseName ≠ "") :
    (extractEpisodeInfo fs vf pack gnfo).EpisodeNum ≠ "" := by
  rcases extractEpisodeInfo_key_or_reject fs vf pack gnfo with hr | hk
  · exact absurd hr h
  · exact hk

/-- Witness for C9 on a concrete accepted episode. -/
theorem claim_C9_witness :
    (extractEpisodeInfo exTree
      ⟨["Show.Name.S01.1080p-GRP", "Show.Name.S01E01.1080p-GRP.mkv"],
       ["Show.Name.S01.1080p-GRP"], "Show.Name.S01E01.1080p-GRP.mkv"⟩
      "Show.Name.S01.1080p-GRP" []).ReleaseName ≠ "" ∧
    (extractEpisodeInfo exTree
      ⟨["Show.Name.S01.1080p-GRP", "Show.Name.S01E01.1080p-GRP.mkv"],
       ["Show.Name.S01.1080p-GRP"], "Show.Name.S01E01.1080p-GRP.mkv"⟩
      "Show.Name.S01.1080p-GRP" []).EpisodeNum ≠ "" :=
  ⟨by decide, claim_C9_accepted_has_key _ _ _ _ (by decide)⟩

/-! ## Claim C1 -/

/-- C1: in shared-directory layout, a video file whose base name carries an
SxxEyy token keeps its own base name as release name exactly when its
prefix matches the pack name and the name contains an upper-case letter;
otherwise the release name is synthesized from the pack name with the
extracted episode digits. -/
theorem claim_C1_shared_release_name (fs : FNode) (vf : VideoFile)
    (pack : String) (gnfo : GoPath) (sd ed : List Char)
    (hshared : goEqualFold (pbase vf.Dir) pack = true)
    (hmatch : seFind (baseNoExt vf.Name).data = some (sd, ed)) :
    (extractEpisodeInfo fs vf pack gnfo).ReleaseName =
      if isValidEpisodeFileName (baseNoExt vf.Name) pack = true ∧
          containsUpper (baseNoExt vf.Name) = true then baseNoExt vf.Name
      else generateEpisodeReleaseName pack ("E" ++ ⟨ed⟩) := by
  have hS : (baseNoExt vf.Name).data.any isSCh = true :=
    seFind_any_isS _ _ hmatch
  have hlow := lowercase_eq_not_upper _ hS
  unfold extractEpisodeInfo
  simp only [hshared, if_true, hmatch]
  cases hv : isValidEpisodeFileName (baseNoExt vf.Name) pack <;>
    cases hup : containsUpper (baseNoExt vf.Name) <;>
      simp [hv, hup, hlow]

/-- Witness for C1: a case-preserved matching name is used verbatim and an
all-lower-case matching name is replaced by the synthesized one. -/
theorem claim_C1_witness :
    (goEqualFold (pbase (["Show.Name.S01.1080p-GRP"] : GoPath))
        "Show.Name.S01.1080p-GRP" = true ∧
      seFind (baseNoExt "Show.Name.S01E01.1080p-GRP.mkv").data =
        some ("01".data, "01".data) ∧
      (extractEpisodeInfo exTree
        ⟨["Show.Name.S01.1080p-GRP", "Show.Name.S01E01.1080p-GRP.mkv"],
         ["Show.Name.S01.1080p-GRP"], "Show.Name.S01E01.1080p-GRP.mkv"⟩
        "Show.Name.S01.1080p-GRP" []).ReleaseName =
        if isValidEpisodeFileName (baseNoExt "Show.Name.S01E01.1080p-GRP.mkv")
              "Show.Name.S01.1080p-GRP" = true ∧
            containsUpper (baseNoExt "Show.Name.S01E01.1080p-GRP.mkv") = true
        then baseNoExt "Show.Name.S01E01.1080p-GRP.mkv"
        else generateEpisodeReleaseName "Show.Name.S01.1080p-GRP"
          ("E" ++ ⟨"01".data⟩)) ∧
    (extractEpisodeInfo exTree
        ⟨["Show.Name.S01.1080p-GRP", "show.name.s01e05.1080p-grp.mkv"],
         ["Show.Name.S01.1080p-GRP"], "show.name.s01e05.1080p-grp.mkv"⟩
        "Show.Name.S01.1080p-GRP" []).ReleaseName =
      if isValidEpisodeFileName (baseNoExt "show.name.s01e05.1080p-grp.mkv")
            "Show.Name.S01.1080p-GRP" = true ∧
          containsUpper (baseNoExt "show.name.s01e05.1080p-grp.mkv") = true
      then baseNoExt "show.name.s01e05.1080p-grp.mkv"
      else generateEpisodeReleaseName "Show.Name.S01.1080p-GRP"
        ("E" ++ ⟨"05".data⟩) :=
  ⟨⟨by decide, by decide,
    claim_C1_shared_release_name exTree _ _ [] "01".data "01".data
      (by decide) (by decide)⟩,
   claim_C1_shared_release_name exTree _ _ [] "01".data "05".data
      (by decide) (by decide)⟩

/-! ## Claim C5 -/

/-- C5 counterexample: the rejected all-lower-case subdirectory yields an
empty release name as claimed, but the returned unit does have an episode
key (EpisodeNum E03), contradicting the claimed "no episode key". -/
theorem claim_C5_counterexample :
    exRejResult.ReleaseName = "" ∧ exRejResult.EpisodeNum = "E03" ∧
      exRejResult.EpisodeNum ≠ "" := by decide

/-- C5 amended: in per-episode-subdirectory layout with an SxxEyy-matching
directory name, a prefix-matching all-lower-case directory is rejected with
an empty release name (the episode-number field still holds the extracted
token), and any other directory name becomes the release name itself. -/
theorem claim_C5_amended_subdir (fs : FNode) (vf : VideoFile) (pack : String)
    (gnfo : GoPath) (sd ed : List Char)
    (hsub : goEqualFold (pbase vf.Dir) pack = false)
    (hmatch : seFind (pbase vf.Dir).data = some (sd, ed)) :
    (extractEpisodeInfo fs vf pack gnfo).EpisodeNum = "E" ++ ⟨ed⟩ ∧
    (extractEpisodeInfo fs vf pack gnfo).ReleaseName =
      (if isValidEpisodeFileName (pbase vf.Dir) pack = true ∧
          isCompletelyLowercase (pbase vf.Dir) = true then ""
       else pbase vf.Dir) := by
  unfold extractEpisodeInfo
  simp only [hsub, hmatch]
  cases hv : isValidEpisodeFileName (pbase vf.Dir) pack <;>
    cases hlo : isCompletelyLowercase (pbase vf.Dir) <;>
      simp [hv, hlo]

/-- Witness for the amended C5: the rejected subdirectory keeps its token in
EpisodeNum, and a case-preserved subdirectory name becomes the release
name. -/
theorem claim_C5_witness :
    (goEqualFold (pbase exRejVf.Dir) "Show.Name.S01.1080p-GRP" = false ∧
      seFind (pbase exRejVf.Dir).data = some ("01".data, "03".data) ∧
      (exRejResult.EpisodeNum = "E" ++ ⟨"03".data⟩ ∧
        exRejResult.ReleaseName =
          (if isValidEpisodeFileName (pbase exRejVf.Dir)
                "Show.Name.S01.1080p-GRP" = true ∧
              isCompletelyLowercase (pbase exRejVf.Dir) = true then ""
           else pbase exRejVf.Dir))) ∧
    (extractEpisodeInfo (.dir "" true [])
        ⟨["Show.Name.S01.1080p-GRP", "Show.Name.S01E03.720p-GRP", "e.mkv"],
         ["Show.Name.S01.1080p-GRP", "Show.Name.S01E03.720p-GRP"], "e.mkv"⟩
        "Show.Name.S01.1080p-GRP" []).ReleaseName =
      (if isValidEpisodeFileName
            (pbase (["Show.Name.S01.1080p-GRP",
              "Show.Name.S01E03.720p-GRP"] : GoPath))
            "Show.Name.S01.1080p-GRP" = true ∧
          isCompletelyLowercase
            (pbase (["Show.Name.S01.1080p-GRP",
              "Show.Name.S01E03.720p-GRP"] : GoPath)) = true then ""
       else pbase (["Show.Name.S01.1080p-GRP",
         "Show.Name.S01E03.720p-GRP"] : GoPath)) :=
  ⟨⟨by decide, by decide,
    claim_C5_amended_subdir (.dir "" true []) exRejVf _ [] "01".data "03".data
      (by decide) (by decide)⟩,
   (claim_C5_amended_subdir (.dir "" true []) _ _ [] "01".data "03".data
      (by decide) (by decide)).2⟩

/-! ## Claim C6 -/

/-- Relativizing a direct child of the base directory yields its bare
name. -/
theorem relSlash_append_single (base : GoPath) (x : String) :
    relSlash base (base ++ [x]) = x := by
  unfold relSlash
  rw [List.drop_left]
  rfl

/-- filepath.Base of a path formed by joining one component. -/
theorem pbase_append_single (p : GoPath) (x : String) :
    pbase (p ++ [x]) = x := by
  unfold pbase
  rw [List.getLast?_concat]
  rfl

/-- C6 amended: for an episode unit in shared-directory layout (more than
one pack video file in the unit's directory), the built file list starts
with the unit's video file, and every further entry comes from a
non-directory sibling (with readable metadata) whose episode token — the
episode part of an SxxEyy token or a bare Eyy token, leftmost occurrence,
extracted by extractEpisodeNumber from its own base name — equals, case
insensitively, the token likewise extracted from the video's base name. -/
theorem claim_C6_amended_related_files (fs : FNode) (ep : EpisodeInfo)
    (allV : List VideoFile) (ents : List FNode) (vsz : Int) (k : String)
    (hpath : ep.videoFile.Path = ep.videoFile.Dir ++ [ep.videoFile.Name])
    (hall : findAllVideoFiles fs ep.videoFile.Dir.dropLast = .ok allV)
    (hcnt : 1 < (allV.filter
      (fun vf => decide (vf.Dir = ep.videoFile.Dir))).length)
    (hstat : statSize fs ep.videoFile.Path = some vsz)
    (hkey : extractEpisodeNumber (baseNoExt ep.videoFile.Name) = k)
    (hk : k ≠ "")
    (hrd : readDir fs ep.videoFile.Dir = some ents) :
    ∃ rest,
      createEpisodeFileList fs ep =
        .ok ({ FilePath := ep.videoFile.Name, FileSizeBytes := vsz } :: rest) ∧
      ∀ e ∈ rest, ∃ n sz,
        FNode.file n sz true ∈ ents ∧ n ≠ ep.videoFile.Name ∧
        goEqualFold (extractEpisodeNumber (baseNoExt n)) k = true ∧
        e = { FilePath := n, FileSizeBytes := sz } := by
  have hc0 : ¬ ((allV.filter
      (fun vf => decide (vf.Dir = ep.videoFile.Dir))).length = 0) := by
    omega
  simp only [createEpisodeFileList, hall]
  rw [if_neg hc0, if_pos hcnt]
  simp only [findRelatedFiles, hstat, hkey]
  rw [if_neg hk]
  simp only [hrd]
  rw [hpath, relSlash_append_single, pbase_append_single]
  refine ⟨_, rfl, ?_⟩
  intro e he
  rw [List.mem_filterMap] at he
  obtain ⟨a, ha, hfa⟩ := he
  cases a with
  | dir _ _ _ => simp at hfa
  | file n sz ok =>
    simp only at hfa
    by_cases h1 : n = ep.videoFile.Name
    · rw [if_pos h1] at hfa; simp at hfa
    · rw [if_neg h1] at hfa
      by_cases h2 : isRelatedFileByEpisode (baseNoExt n) k = true
      · rw [if_pos h2] at hfa
        cases ok with
        | false => simp at hfa
        | true =>
          rw [if_pos rfl] at hfa
          rw [relSlash_append_single] at hfa
          refine ⟨n, sz, ha, h1, h2, ?_⟩
          exact ((Option.some.injEq _ _).mp hfa).symm
      · rw [if_neg (by simpa using h2)] at hfa
        simp at hfa

/-- Witness for the amended C6 on the example pack. -/
theorem claim_C6_witness :
    exEp.videoFile.Path = exEp.videoFile.Dir ++ [exEp.videoFile.Name] ∧
    findAllVideoFiles exTree exEp.videoFile.Dir.dropLast = .ok exAllV ∧
    1 < (exAllV.filter
      (fun vf => decide (vf.Dir = exEp.videoFile.Dir))).length ∧
    statSize exTree exEp.videoFile.Path = some 100 ∧
    extractEpisodeNumber (baseNoExt exEp.videoFile.Name) = "E01" ∧
    ("E01" : String) ≠ "" ∧
    readDir exTree exEp.videoFile.Dir = some exPackChildren ∧
    ∃ rest,
      createEpisodeFileList exTree exEp =
        .ok ({ FilePath := exEp.videoFile.Name, FileSizeBytes := 100 } :: rest) ∧
      ∀ e ∈ rest, ∃ n sz,
        FNode.file n sz true ∈ exPackChildren ∧ n ≠ exEp.videoFile.Name ∧
        goEqualFold (extractEpisodeNumber (baseNoExt n)) "E01" = true ∧
        e = { FilePath := n, FileSizeBytes := sz } :=
  ⟨rfl, rfl, by decide, rfl, by decide, by decide, rfl,
   claim_C6_amended_related_files exTree exEp exAllV exPackChildren 100 "E01"
     rfl rfl (by decide) rfl (by decide) (by decide) rfl⟩

/-- C6 counterexample: the E05 unit's file list includes the sibling
Show.Name.E05.Sample.nfo, although that file's base name has no episode key
extractable by the identity patterns of the spec (no SxxEyy token and no
ISO date), contradicting the claim that such files are never included. -/
theorem claim_C6_counterexample :
    extractEpisodeInfo exTree2 exVf2 "Show.Name.S01.1080p-GRP" [] = exEp2 ∧
    exEp2.EpisodeNum = "E05" ∧
    createEpisodeFileList exTree2 exEp2 =
      .ok [{ FilePath := "Show.Name.S01E05.1080p-GRP.mkv",
             FileSizeBytes := 100 },
           { FilePath := "Show.Name.E05.Sample.nfo", FileSizeBytes := 5 }] ∧
    seFind (baseNoExt "Show.Name.E05.Sample.nfo").data = none ∧
    isoFind (baseNoExt "Show.Name.E05.Sample.nfo").data = none :=
  ⟨by decide, rfl, rfl, by decide, by decide⟩

/-! ## Claim C7: supporting lemmas -/

/-- Upper-casing does not change a digit. -/
theorem digit_toUpper (c : Char) (h : isDigitCh c = true) : c.toUpper = c := by
  unfold isDigitCh at h
  rw [Bool.and_eq_true, decide_eq_true_eq, decide_eq_true_eq] at h
  unfold Char.toUpper
  have h9 : c.toNat ≤ 57 := by
    have h2 := h.2
    change c.val ≤ _ at h2
    exact h2
  rw [if_neg]
  omega

/-- Lower-casing does not change a digit. -/
theorem digit_toLower (c : Char) (h : isDigitCh c = true) : c.toLower = c := by
  unfold isDigitCh at h
  rw [Bool.and_eq_true, decide_eq_true_eq, decide_eq_true_eq] at h
  unfold Char.toLower
  have h9 : c.toNat ≤ 57 := by
    have h2 := h.2
    change c.val ≤ _ at h2
    exact h2
  rw [if_neg]
  omega

/-- A digit is not a whitespace character. -/
theorem digit_not_space (c : Char) (h : isDigitCh c = true) :
    isSpaceCh c = false := by
  by_contra hsp
  rw [Bool.not_eq_false] at hsp
  unfold isSpaceCh at hsp
  simp only [Bool.or_eq_true, decide_eq_true_eq] at hsp
  rcases hsp with ((((((rfl | rfl) | rfl) | rfl) | rfl) | rfl) | rfl) | rfl <;>
    exact absurd h (by decide)

/-- A character that does not lower-case to s is not an S. -/
theorem not_s_ch (c : Char) (h : Char.toLower c ≠ 's') : isSCh c = false := by
  have h1 : c ≠ 'S' := by rintro rfl; exact h (by decide)
  have h2 : c ≠ 's' := by rintro rfl; exact h (by decide)
  simp [isSCh, h1, h2]

/-- A character that does not lower-case to e is not an E. -/
theorem not_e_ch (c : Char) (h : Char.toLower c ≠ 'e') : isECh c = false := by
  have h1 : c ≠ 'E' := by rintro rfl; exact h (by decide)
  have h2 : c ≠ 'e' := by rintro rfl; exact h (by decide)
  simp [isECh, h1, h2]

/-- A successful case-insensitive strip finds every pattern letter in the
input. -/
theorem ciStrip_mem : ∀ (pat cs r : List Char), ciStrip pat cs = some r →
    ∀ p ∈ pat, ∃ c ∈ cs, Char.toLower c = p
  | [], _, _, _ => by simp
  | p :: ps, [], r, h => by simp [ciStrip] at h
  | p :: ps, c :: rest, r, h => by
    unfold ciStrip at h
    by_cases hc : Char.toLower c = p
    · rw [if_pos hc] at h
      intro q hq
      rcases List.mem_cons.mp hq with rfl | hq2
      · exact ⟨c, List.mem_cons_self c rest, hc⟩
      · obtain ⟨d, hd, hdq⟩ := ciStrip_mem ps rest r h q hq2
        exact ⟨d, List.mem_cons_of_mem c hd, hdq⟩
    · rw [if_neg hc] at h
      exact absurd h (by simp)

/-- A text without the letter e holds no COMPLETE/iNCOMPLETE token. -/
theorem complLenAt_none (cs : List Char)
    (h : ∀ c ∈ cs, Char.toLower c ≠ 'e') : complLenAt cs = none := by
  unfold complLenAt
  cases h1 : ciStrip "complete".data cs with
  | some r =>
    obtain ⟨c, hc, he⟩ := ciStrip_mem _ _ _ h1 'e' (by decide)
    exact absurd he (h c hc)
  | none =>
    cases h2 : ciStrip "incomplete".data cs with
    | some r =>
      obtain ⟨c, hc, he⟩ := ciStrip_mem _ _ _ h2 'e' (by decide)
      exact absurd he (h c hc)
    | none => rfl

/-- COMPLETE-token removal leaves a text without the letter e unchanged. -/
theorem rmComplAux_id : ∀ (cs : List Char),
    (∀ c ∈ cs, Char.toLower c ≠ 'e') → ∀ pw, rmComplAux 0 pw cs = cs
  | [], _, _ => rfl
  | c :: rest, h, pw => by
    have hn := complLenAt_none (c :: rest) h
    have ih := rmComplAux_id rest
      (fun d hd => h d (List.mem_cons_of_mem c hd)) (isWordCh c)
    cases pw <;> simp [rmComplAux, hn, ih]

/-- dropWhile keeps a list whose head fails the predicate. -/
theorem dropWhile_head_keep (p : Char → Bool) (l : List Char)
    (h : ∀ c, l.head? = some c → p c = false) : l.dropWhile p = l := by
  cases l with
  | nil => rfl
  | cons c t => simp [List.dropWhile_cons, h c rfl]

/-- TrimSpace is the identity on a text with non-space first and last
characters. -/
theorem goTrimSpace_id (cs : List Char)
    (h1 : ∀ c, cs.head? = some c → isSpaceCh c = false)
    (h2 : ∀ c, cs.getLast? = some c → isSpaceCh c = false) :
    goTrimSpace cs = cs := by
  unfold goTrimSpace
  rw [dropWhile_head_keep _ cs h1]
  rw [dropWhile_head_keep _ cs.reverse
    (fun c hc => h2 c (by rwa [List.head?_reverse] at hc))]
  exact List.reverse_reverse cs

/-- takeWhile keeps a list all of whose elements pass. -/
theorem takeWhile_all (p : Char → Bool) : ∀ l : List Char,
    (∀ c ∈ l, p c = true) → l.takeWhile p = l
  | [], _ => rfl
  | c :: t, h => by
    rw [List.takeWhile_cons, if_pos (h c (List.mem_cons_self c t))]
    rw [takeWhile_all p t (fun d hd => h d (List.mem_cons_of_mem c hd))]

/-- takeWhile over a passing prefix followed by a failing element yields
the prefix. -/
theorem takeWhile_append_stop (p : Char → Bool) (y : Char)
    (hy : p y = false) : ∀ (xs t : List Char),
    (∀ c ∈ xs, p c = true) → (xs ++ y :: t).takeWhile p = xs
  | [], t, _ => by simp [List.takeWhile_cons, hy]
  | c :: xs, t, h => by
    rw [List.cons_append, List.takeWhile_cons,
      if_pos (h c (List.mem_cons_self c xs))]
    rw [takeWhile_append_stop p y hy xs t
      (fun d hd => h d (List.mem_cons_of_mem c hd))]

/-- The skip phase of the season-token rewriter consumes exactly the
skipped characters. -/
theorem replSAux_consume (ep : List Char) : ∀ (cs : List Char) (pw : Bool),
    replSAux ep cs.length pw cs = []
  | [], _ => rfl
  | c :: rest, pw => by
    show replSAux ep (rest.length + 1) pw (c :: rest) = []
    rw [replSAux]
    exact replSAux_consume ep rest true

/-- The season-token rewriter copies a prefix without the letter S,
updating the boundary state. -/
theorem replSAux_copy (ep : List Char) : ∀ (p t : List Char) (pw : Bool),
    (∀ c ∈ p, isSCh c = false) →
    replSAux ep 0 pw (p ++ t) = p ++ replSAux ep 0 (pwEnd pw p) t
  | [], t, pw, _ => by simp [pwEnd]
  | c :: q, t, pw, h => by
    have hc : isSCh c = false := h c (List.mem_cons_self c q)
    have ih := replSAux_copy ep q t (isWordCh c)
      (fun d hd => h d (List.mem_cons_of_mem c hd))
    show replSAux ep 0 pw (c :: (q ++ t)) = _
    cases pw <;> simp [replSAux, hc, ih, pwEnd]

/-- Rewriting a terminal standalone season token inserts the episode
token. -/
theorem replSAux_token (ss ep : List Char)
    (hss2 : 2 ≤ ss.length) (hss4 : ss.length ≤ 4)
    (hssd : ∀ c ∈ ss, isDigitCh c = true) :
    replSAux ep 0 false ('S' :: ss) = 'S' :: (ss ++ ep) := by
  have htw : ss.takeWhile isDigitCh = ss := takeWhile_all _ ss hssd
  have htok : seasonDigitsTok ss = true := by
    unfold seasonDigitsTok leadDigits
    rw [htw]
    simp only [List.drop_length]
    simp [boundaryAfter, hss2, hss4]
  rw [replSAux]
  rw [if_neg (by simp)]
  rw [if_pos (by rw [htok]; decide)]
  simp only [htw]
  rw [replSAux_consume ep ss true, List.append_nil]

/-- On a prefix free of the letters S and E that keeps the scan outside a
word, the whole synthesis pipeline only rewrites the terminal season
token. -/
theorem generate_structural (p ss ds : List Char)
    (hp : ∀ c ∈ p, Char.toLower c ≠ 's' ∧ Char.toLower c ≠ 'e')
    (hpw : pwEnd false p = false)
    (hhead : ∀ c, p.head? = some c → isSpaceCh c = false)
    (hss2 : 2 ≤ ss.length) (hss4 : ss.length ≤ 4)
    (hssd : ∀ c ∈ ss, isDigitCh c = true) :
    generateEpisodeReleaseName ⟨p ++ 'S' :: ss⟩ ⟨'E' :: ds⟩ =
      ⟨p ++ 'S' :: (ss ++ 'E' :: ds)⟩ := by
  have hss0 : ss ≠ [] := by
    intro hnil
    rw [hnil] at hss2
    simp at hss2
  have hnoE : ∀ c ∈ p ++ 'S' :: ss, Char.toLower c ≠ 'e' := by
    intro c hc
    rcases List.mem_append.mp hc with hcp | hcs
    · exact (hp c hcp).2
    · rcases List.mem_cons.mp hcs with rfl | h2
      · decide
      · intro hEq
        have hd := hssd c h2
        rw [digit_toLower c hd] at hEq
        rw [hEq] at hd
        exact absurd hd (by decide)
  unfold generateEpisodeReleaseName
  congr 1
  show replSAux ('E' :: ds) 0 false
      (goTrimSpace (rmComplAux 0 false (p ++ 'S' :: ss))) = _
  rw [rmComplAux_id _ hnoE false]
  rw [goTrimSpace_id]
  · rw [replSAux_copy ('E' :: ds) p ('S' :: ss) false
      (fun c hc => not_s_ch c (hp c hc).1)]
    rw [hpw, replSAux_token ss ('E' :: ds) hss2 hss4 hssd]
  · intro c hc
    cases p with
    | nil =>
      rw [List.nil_append, List.head?_cons, Option.some.injEq] at hc
      rw [← hc]
      decide
    | cons a q =>
      rw [List.cons_append, List.head?_cons, Option.some.injEq] at hc
      rw [← hc]
      exact hhead a rfl
  · intro c hc
    rw [List.getLast?_append_cons] at hc
    have hmem : c ∈ 'S' :: ss := List.mem_of_getLast?_eq_some hc
    rcases List.mem_cons.mp hmem with rfl | h2
    · decide
    · exact digit_not_space c (hssd c h2)

/-- No episode-number match can start at a character that is neither an S
nor an E. -/
theorem epNumMatchAt_none (c : Char) (rest : List Char)
    (h1 : isSCh c = false) (h2 : isECh c = false) :
    epNumMatchAt (c :: rest) = none := by
  simp [epNumMatchAt, h1, h2]

/-- The episode-number scan passes over a prefix free of the letters S and
E. -/
theorem epNumFind_skip : ∀ (p t : List Char),
    (∀ c ∈ p, isSCh c = false ∧ isECh c = false) →
    epNumFind (p ++ t) = epNumFind t
  | [], _, _ => rfl
  | c :: q, t, h => by
    show epNumFind (c :: (q ++ t)) = _
    rw [epNumFind]
    rw [epNumMatchAt_none c (q ++ t) (h c (List.mem_cons_self c q)).1
      (h c (List.mem_cons_self c q)).2]
    exact epNumFind_skip q t (fun d hd => h d (List.mem_cons_of_mem c hd))

/-- The digit run of a digit block followed by an E. -/
theorem leadDigits_block (ss : List Char) (y : Char) (t : List Char)
    (hss : ∀ c ∈ ss, isDigitCh c = true) (hy : isDigitCh y = false) :
    leadDigits (ss ++ y :: t) = ss.length := by
  unfold leadDigits
  rw [takeWhile_append_stop _ y hy ss t hss]

/-- Upper-casing does not change a digit string. -/
theorem digits_map_toUpper : ∀ ds : List Char,
    (∀ c ∈ ds, isDigitCh c = true) → ds.map Char.toUpper = ds
  | [], _ => rfl
  | c :: t, h => by
    rw [List.map_cons, digit_toUpper c (h c (List.mem_cons_self c t)),
      digits_map_toUpper t (fun d hd => h d (List.mem_cons_of_mem c hd))]

/-- The episode-number match at a well-formed SxxEyy token returns the
episode token. -/
theorem epNumFind_token (ss ds : List Char)
    (hss2 : 2 ≤ ss.length) (hss4 : ss.length ≤ 4)
    (hssd : ∀ c ∈ ss, isDigitCh c = true)
    (hds2 : 2 ≤ ds.length) (hds4 : ds.length ≤ 4)
    (hdsd : ∀ c ∈ ds, isDigitCh c = true) :
    epNumFind ('S' :: (ss ++ 'E' :: ds)) = some ('E' :: ds) := by
  have hmatch : epNumMatchAt ('S' :: (ss ++ 'E' :: ds)) = some ('E' :: ds) := by
    simp only [epNumMatchAt]
    rw [if_pos (by decide : isSCh 'S' = true)]
    rw [leadDigits_block ss 'E' ds hssd (by decide)]
    simp only [List.drop_left]
    rw [if_pos ⟨hss2, hss4⟩]
    rw [if_pos (by decide : isECh 'E' = true)]
    have hld : leadDigits ds = ds.length := by
      unfold leadDigits
      rw [takeWhile_all _ ds hdsd]
    rw [hld]
    rw [if_pos hds2]
    rw [Nat.min_eq_left hds4, List.take_length]
  rw [epNumFind, hmatch]

/-- Extracting the episode number back out of a prefix-plus-token name. -/
theorem extract_token (p ss ds : List Char)
    (hp : ∀ c ∈ p, Char.toLower c ≠ 's' ∧ Char.toLower c ≠ 'e')
    (hss2 : 2 ≤ ss.length) (hss4 : ss.length ≤ 4)
    (hssd : ∀ c ∈ ss, isDigitCh c = true)
    (hds2 : 2 ≤ ds.length) (hds4 : ds.length ≤ 4)
    (hdsd : ∀ c ∈ ds, isDigitCh c = true) :
    extractEpisodeNumber ⟨p ++ 'S' :: (ss ++ 'E' :: ds)⟩ = ⟨'E' :: ds⟩ := by
  have hskip : epNumFind (p ++ 'S' :: (ss ++ 'E' :: ds)) = some ('E' :: ds) := by
    rw [epNumFind_skip p _
      (fun c hc => ⟨not_s_ch c (hp c hc).1, not_e_ch c (hp c hc).2⟩)]
    exact epNumFind_token ss ds hss2 hss4 hssd hds2 hds4 hdsd
  have hu : ('E' :: ds).map Char.toUpper = 'E' :: ds := by
    rw [List.map_cons, digits_map_toUpper ds hdsd,
      (by decide : Char.toUpper 'E' = 'E')]
  unfold extractEpisodeNumber
  rw [show (⟨p ++ 'S' :: (ss ++ 'E' :: ds)⟩ : String).data =
    p ++ 'S' :: (ss ++ 'E' :: ds) from rfl]
  rw [hskip]
  simp [hu]

/-- A digit is not an S of either case. -/
theorem digit_not_sCh (c : Char) (h : isDigitCh c = true) : isSCh c = false := by
  by_contra hs
  rw [Bool.not_eq_false] at hs
  rcases (by simpa [isSCh, decide_eq_true_eq] using hs : c = 'S' ∨ c = 's')
    with rfl | rfl <;> exact absurd h (by decide)

/-- A digit is a word character. -/
theorem digit_word (c : Char) (h : isDigitCh c = true) : isWordCh c = true := by
  simp [isWordCh, h]

/-- A non-word character is not a digit. -/
theorem not_word_not_digit (c : Char) (h : isWordCh c = false) :
    isDigitCh c = false := by
  by_contra hd
  rw [Bool.not_eq_false] at hd
  rw [digit_word c hd] at h
  exact absurd h (by simp)

/-- After reading a non-empty all-word block the scan state is in a
word. -/
theorem pwEnd_all_word : ∀ (l : List Char) (pw : Bool), l ≠ [] →
    (∀ c ∈ l, isWordCh c = true) → pwEnd pw l = true
  | [], _, h, _ => absurd rfl h
  | [c], pw, _, hw => by
    simp [pwEnd, List.foldl_cons, hw c (List.mem_cons_self c [])]
  | c :: d :: l, pw, _, hw => by
    show pwEnd (isWordCh c) (d :: l) = true
    exact pwEnd_all_word (d :: l) (isWordCh c) (by simp)
      (fun x hx => hw x (List.mem_cons_of_mem c hx))

/-- The head of a dropWhile result fails the predicate. -/
theorem dropWhile_head_false (p : Char → Bool) : ∀ (l : List Char)
    (w : Char) (t : List Char), l.dropWhile p = w :: t → p w = false
  | [], _, _, h => by simp [List.dropWhile] at h
  | c :: l, w, t, h => by
    rw [List.dropWhile_cons] at h
    by_cases hc : p c = true
    · rw [if_pos hc] at h
      exact dropWhile_head_false p l w t h
    · rw [if_neg hc] at h
      cases h
      exact Bool.not_eq_true _ |>.mp hc

/-- At word state the season rewriter copies the head character. -/
theorem replSAux_cons_true (ep : List Char) (w : Char) (l : List Char) :
    replSAux ep 0 true (w :: l) = w :: replSAux ep 0 (isWordCh w) l := by
  simp [replSAux]

/-- The season rewriter preserves the leading digit run. -/
theorem leadDigits_replSAux (ep : List Char) : ∀ (l : List Char) (pw : Bool),
    leadDigits (replSAux ep 0 pw l) = leadDigits l
  | [], _ => rfl
  | c :: l, pw => by
    by_cases hd : isDigitCh c = true
    · have hS : isSCh c = false := digit_not_sCh c hd
      have hcopy : replSAux ep 0 pw (c :: l) =
          c :: replSAux ep 0 (isWordCh c) l := by
        cases pw <;> simp [replSAux, hS]
      rw [hcopy]
      have ih := leadDigits_replSAux ep l (isWordCh c)
      unfold leadDigits at ih ⊢
      rw [List.takeWhile_cons, List.takeWhile_cons, if_pos hd, if_pos hd]
      simp [ih]
    · have h0 : leadDigits (c :: l) = 0 := by
        simp [leadDigits, List.takeWhile_cons, hd]
      rw [h0]
      cases pw with
      | true =>
        rw [replSAux_cons_true]
        simp [leadDigits, List.takeWhile_cons, hd]
      | false =>
        by_cases htok : (isSCh c && seasonDigitsTok l) = true
        · simp only [replSAux, htok, Bool.false_eq_true, if_false, if_true]
          simp [leadDigits, List.takeWhile_cons,
            (by decide : isDigitCh 'S' = false)]
        · simp only [replSAux, htok, Bool.false_eq_true, if_false]
          simp [leadDigits, List.takeWhile_cons, hd]

/-- The skip phase of the season rewriter drops the skipped characters and
resumes in word state. -/
theorem replSAux_skip (ep : List Char) : ∀ (l : List Char) (n : Nat) (pw : Bool),
    replSAux ep (n + 1) pw l = replSAux ep 0 true (l.drop (n + 1))
  | [], _, _ => by simp [replSAux]
  | c :: l, n, pw => by
    show replSAux ep n true l = _
    rw [List.drop_succ_cons]
    cases n with
    | zero => rw [List.drop_zero]
    | succ m => exact replSAux_skip ep l m true

/-- Dropping the leading digit run is dropWhile. -/
theorem drop_leadDigits (l : List Char) :
    l.drop (leadDigits l) = l.dropWhile isDigitCh := by
  have hd := List.drop_left (l.takeWhile isDigitCh) (l.dropWhile isDigitCh)
  rw [List.takeWhile_append_dropWhile] at hd
  exact hd

/-- The season rewriter of the tail neither creates nor destroys an
episode-number match at the current position: rewrites strictly to the
right of the digit runs the matcher inspects cannot be reached by it. -/
theorem epNumMatchAt_transfer (ep : List Char) (c : Char) (rest : List Char)
    (pw : Bool) (h : epNumMatchAt (c :: rest) = none) :
    epNumMatchAt (c :: replSAux ep 0 pw rest) = none := by
  by_cases hS : isSCh c = true
  · by_cases hr : 2 ≤ leadDigits rest ∧ leadDigits rest ≤ 4
    · have hdsn : ∀ x ∈ rest.takeWhile isDigitCh, isDigitCh x = true :=
        fun x hx => List.mem_takeWhile_imp hx
      have hne : rest.takeWhile isDigitCh ≠ [] := by
        intro hnil
        have h0 : leadDigits rest = 0 := by
          unfold leadDigits
          rw [hnil]
          rfl
        omega
      have hout : replSAux ep 0 pw rest =
          rest.takeWhile isDigitCh ++
            replSAux ep 0 true (rest.dropWhile isDigitCh) := by
        conv_lhs => rw [← List.takeWhile_append_dropWhile isDigitCh rest]
        rw [replSAux_copy ep (rest.takeWhile isDigitCh)
          (rest.dropWhile isDigitCh) pw
          (fun x hx => digit_not_sCh x (hdsn x hx))]
        rw [pwEnd_all_word _ pw hne (fun x hx => digit_word x (hdsn x hx))]
      have hdropo : (replSAux ep 0 pw rest).drop (leadDigits rest) =
          replSAux ep 0 true (rest.dropWhile isDigitCh) := by
        rw [hout]
        exact List.drop_left _ _
      simp only [epNumMatchAt, hS, if_true] at h ⊢
      rw [leadDigits_replSAux ep rest pw, if_pos hr, hdropo]
      rw [if_pos hr, drop_leadDigits] at h
      cases hsplit : rest.dropWhile isDigitCh with
      | nil => simp [replSAux]
      | cons w rest3 =>
        rw [hsplit] at h
        rw [replSAux_cons_true]
        by_cases hE : isECh w = true
        · have h2 : ¬ 2 ≤ leadDigits rest3 := by
            intro h2
            simp [hE, h2] at h
          simp [hE, h2, leadDigits_replSAux]
        · simp [hE]
    · simp only [epNumMatchAt, hS, if_true]
      rw [leadDigits_replSAux ep rest pw, if_neg hr]
  · have hS2 : isSCh c = false := by rwa [Bool.not_eq_true] at hS
    by_cases hE : isECh c = true
    · have h2 : ¬ 2 ≤ leadDigits rest := by
        intro h2
        simp [epNumMatchAt, hS2, hE, h2] at h
      simp [epNumMatchAt, hS2, hE, h2, leadDigits_replSAux]
    · have hE2 : isECh c = false := by rwa [Bool.not_eq_true] at hE
      simp [epNumMatchAt, hS2, hE2]

/-- Scanning the rewritten name: when a standalone season token is reached
before any episode-number match, the leftmost episode-number match of the
rewritten name is the episode token inserted at that first season
token. -/
theorem epNumFind_replS (ds : List Char) (hds2 : 2 ≤ ds.length)
    (hds4 : ds.length ≤ 4) (hdsd : ∀ c ∈ ds, isDigitCh c = true) :
    ∀ (t : List Char) (pw : Bool), noEpBeforeSeason pw t = true →
      epNumFind (replSAux ('E' :: ds) 0 pw t) = some ('E' :: ds)
  | [], _, h => by simp [noEpBeforeSeason] at h
  | c :: rest, pw, h => by
    by_cases htok : (!pw && isSCh c && seasonDigitsTok rest) = true
    · have htok2 := htok
      rw [Bool.and_eq_true, Bool.and_eq_true] at htok2
      obtain ⟨⟨hnp, hS⟩, hstok⟩ := htok2
      have hpw : pw = false := by rwa [Bool.not_eq_true'] at hnp
      subst hpw
      have hrr : 2 ≤ leadDigits rest ∧ leadDigits rest ≤ 4 ∧
          boundaryAfter (rest.drop (leadDigits rest)) = true := by
        unfold seasonDigitsTok at hstok
        simp only [Bool.and_eq_true, decide_eq_true_eq] at hstok
        exact ⟨hstok.1.1, hstok.1.2, hstok.2⟩
      have hdsn : ∀ x ∈ rest.takeWhile isDigitCh, isDigitCh x = true :=
        fun x hx => List.mem_takeWhile_imp hx
      have hlen : (rest.takeWhile isDigitCh).length = leadDigits rest := rfl
      have hrepl : replSAux ('E' :: ds) 0 false (c :: rest) =
          'S' :: (rest.takeWhile isDigitCh ++ ('E' :: ds) ++
            replSAux ('E' :: ds) (rest.takeWhile isDigitCh).length true rest) := by
        simp [replSAux, hS, hstok]
      obtain ⟨m, hm⟩ : ∃ m, (rest.takeWhile isDigitCh).length = m + 1 := by
        refine ⟨leadDigits rest - 1, ?_⟩
        rw [hlen]
        omega
      have hm2 : m + 1 = leadDigits rest := by rw [← hm, hlen]
      rw [hrepl, hm, replSAux_skip, hm2, drop_leadDigits]
      rw [List.append_assoc, List.cons_append]
      rw [epNumFind]
      have hboundary := hrr.2.2
      rw [drop_leadDigits] at hboundary
      have hmain : epNumMatchAt
          ('S' :: (rest.takeWhile isDigitCh ++ 'E' ::
            (ds ++ replSAux ('E' :: ds) 0 true (rest.dropWhile isDigitCh)))) =
          some ('E' :: ds) := by
        simp only [epNumMatchAt, (by decide : isSCh 'S' = true), if_true]
        have hld : leadDigits (rest.takeWhile isDigitCh ++ 'E' ::
            (ds ++ replSAux ('E' :: ds) 0 true (rest.dropWhile isDigitCh))) =
            leadDigits rest := by
          unfold leadDigits
          rw [takeWhile_append_stop isDigitCh 'E' (by decide) _ _ hdsn]
        rw [hld, if_pos ⟨hrr.1, hrr.2.1⟩]
        have hdrop2 : (rest.takeWhile isDigitCh ++ 'E' ::
            (ds ++ replSAux ('E' :: ds) 0 true (rest.dropWhile isDigitCh))).drop
              (leadDigits rest) =
            'E' :: (ds ++ replSAux ('E' :: ds) 0 true
              (rest.dropWhile isDigitCh)) := by
          rw [← hlen]
          exact List.drop_left _ _
        rw [hdrop2]
        have hr2 : leadDigits (ds ++ replSAux ('E' :: ds) 0 true
            (rest.dropWhile isDigitCh)) = ds.length := by
          cases hsplit2 : rest.dropWhile isDigitCh with
          | nil =>
            show leadDigits (ds ++ replSAux ('E' :: ds) 0 true []) = ds.length
            have : replSAux ('E' :: ds) 0 true ([] : List Char) = [] := rfl
            rw [this, List.append_nil]
            unfold leadDigits
            rw [takeWhile_all _ ds hdsd]
          | cons w rest3 =>
            have hw : isDigitCh w = false := by
              rw [hsplit2] at hboundary
              unfold boundaryAfter at hboundary
              rw [Bool.not_eq_true'] at hboundary
              exact not_word_not_digit w hboundary
            show leadDigits (ds ++ replSAux ('E' :: ds) 0 true (w :: rest3))
              = ds.length
            rw [replSAux_cons_true]
            unfold leadDigits
            rw [takeWhile_append_stop isDigitCh w hw ds _ hdsd]
        simp [(by decide : isECh 'E' = true), hr2, hds2,
          Nat.min_eq_left hds4, List.take_left]
      rw [hmain]
    · rw [noEpBeforeSeason, if_neg htok] at h
      cases hmm : epNumMatchAt (c :: rest) with
      | some g => rw [hmm] at h; simp at h
      | none =>
        rw [hmm] at h
        simp only [Option.isSome_none, Bool.false_eq_true, if_false] at h
        have hcopy : replSAux ('E' :: ds) 0 pw (c :: rest) =
            c :: replSAux ('E' :: ds) 0 (isWordCh c) rest := by
          cases hpw : pw with
          | true => exact replSAux_cons_true _ c rest
          | false =>
            have hcond : (isSCh c && seasonDigitsTok rest) = false := by
              rw [Bool.eq_false_iff]
              intro hcc
              apply htok
              rw [hpw]
              simpa using hcc
            simp [replSAux, hcond]
        rw [hcopy, epNumFind]
        rw [epNumMatchAt_transfer ('E' :: ds) c rest (isWordCh c) hmm]
        exact epNumFind_replS ds hds2 hds4 hdsd rest (isWordCh c) h

/-- C7 counterexample: re-extracting the key from a synthesized release
name does not return the key when the pack name has no standalone season
token (nothing is rewritten) or when an earlier E-digits token occurs in
the name (the leftmost token wins). -/
theorem claim_C7_counterexample :
    extractEpisodeNumber
      (generateEpisodeReleaseName "Show.Name.1080p" "E05") = "" ∧
    extractEpisodeNumber
      (generateEpisodeReleaseName "E02.Show.S01" "E05") = "E02" ∧
    goEqualFold "" "E05" = false ∧ goEqualFold "E02" "E05" = false := by
  decide

/-- C7 amended: key extraction round-trips through release-name synthesis
exactly under the condition the counterexamples force: the cleaned pack
name (COMPLETE/iNCOMPLETE tokens removed, whitespace trimmed) reaches a
standalone season token before any position where the episode-number
pattern (an SxxEyy or a bare Eyy) matches.  Ordinary pack names such as
Show.Name.S01.1080p-GRP satisfy the condition; a name with no standalone
season token, or with an E-digits occurrence before its first season
token, does not, and the round trip can fail there (see the
counterexample). -/
theorem claim_C7_amended_round_trip (packName : String) (ds : List Char)
    (hds2 : 2 ≤ ds.length) (hds4 : ds.length ≤ 4)
    (hdsd : ∀ c ∈ ds, isDigitCh c = true)
    (h : noEpBeforeSeason false
      (goTrimSpace (rmComplAux 0 false packName.data)) = true) :
    extractEpisodeNumber (generateEpisodeReleaseName packName ⟨'E' :: ds⟩) =
      ⟨'E' :: ds⟩ := by
  have hu : ('E' :: ds).map Char.toUpper = 'E' :: ds := by
    rw [List.map_cons, digits_map_toUpper ds hdsd,
      (by decide : Char.toUpper 'E' = 'E')]
  unfold generateEpisodeReleaseName extractEpisodeNumber
  rw [show (⟨'E' :: ds⟩ : String).data = 'E' :: ds from rfl]
  rw [show (⟨replSAux ('E' :: ds) 0 false
      (goTrimSpace (rmComplAux 0 false packName.data))⟩ : String).data =
    replSAux ('E' :: ds) 0 false
      (goTrimSpace (rmComplAux 0 false packName.data)) from rfl]
  rw [epNumFind_replS ds hds2 hds4 hdsd
    (goTrimSpace (rmComplAux 0 false packName.data)) false h]
  simp [hu]

/-- Witness for the amended C7 on realistic pack names, with and without a
COMPLETE marker. -/
theorem claim_C7_witness :
    noEpBeforeSeason false
      (goTrimSpace (rmComplAux 0 false "Show.Name.S01.1080p-GRP".data))
      = true ∧
    noEpBeforeSeason false
      (goTrimSpace
        (rmComplAux 0 false "Show.Name.S01.COMPLETE.1080p-GRP".data))
      = true ∧
    extractEpisodeNumber
      (generateEpisodeReleaseName "Show.Name.S01.1080p-GRP"
        ⟨'E' :: "05".data⟩) = ⟨'E' :: "05".data⟩ ∧
    extractEpisodeNumber
      (generateEpisodeReleaseName "Show.Name.S01.COMPLETE.1080p-GRP"
        ⟨'E' :: "05".data⟩) = ⟨'E' :: "05".data⟩ :=
  ⟨by decide, by decide,
   claim_C7_amended_round_trip "Show.Name.S01.1080p-GRP" "05".data
     (by decide) (by decide) (by decide) (by decide),
   claim_C7_amended_round_trip "Show.Name.S01.COMPLETE.1080p-GRP" "05".data
     (by decide) (by decide) (by decide) (by decide)⟩

end CrowdClient

section scratch
open CrowdClient
example : isSeasonPack "Show.Name.S01.1080p-GRP" = true := by decide
example : isSeasonPack "S01E05" = false := by decide
example : isSeasonPack "Show.S01.S02E03" = false := by decide
example : hasSeasonTok false "Show.S01.S02E03".data = true := by decide
example : isSeasonPack "Show.S2024E01" = false := by decide
example : isSeasonPack "Show.S2024.S01E05" = true := by decide
example : isSeasonPack "Show.S2024" = true := by decide
example : isSeasonPack "Show.S12345" = false := by decide

example : extractEpisodeNumber "Show.Name.S01E05.1080p" = "E05" := by decide
example : extractEpisodeNumber "E02.Show.S01E05" = "E02" := by decide
example : extractEpisodeNumber "Show.Name.1080p" = "" := by decide
example : extractEpisodeNumber "Show.Name.E05.Sample" = "E05" := by decide
example : extractEpisodeNumber "show.s01e03" = "E03" := by decide
example : generateEpisodeReleaseName "Show.Name.S01.COMPLETE.1080p" "E05"
    = "Show.Name.S01E05..1080p" := by decide
example : generateEpisodeReleaseName "E02.Show.S01" "E05" = "E02.Show.S01E05" := by decide
example : generateEpisodeReleaseName "Show.Name.1080p" "E05" = "Show.Name.1080p" := by decide
example : isValidEpisodeFileName "Show.Name.S01E05.1080p-GRP" "Show.Name.S01.1080p-GRP"
    = true := by decide
example : isValidEpisodeFileName "Other.Show.S01E05" "Show.Name.S01.1080p-GRP"
    = false := by decide
example : isValidEpisodeFileName "show.name.s01e03.1080p-grp" "Show.Name.S01.1080p-GRP"
    = true := by decide
example : isCompletelyLowercase "show.name.s01e03" = true := by decide
example : isCompletelyLowercase "Show.Name.S01E03" = false := by decide
example : isCompletelyLowercase "2024.01.05" = false := by decide
example : seFind "Show.Name.S01E05.1080p".data = some ("01".data, "05".data) := by decide
example : seFind "Show.Name.E05.Sample".data = none := by decide
example : isoFind "Show.2024-03-01.hdtv".data = some "2024-03-01".data := by decide

example : noEpBeforeSeason false
    (goTrimSpace (rmComplAux 0 false "Show.Name.S01.1080p-GRP".data)) = true := by
  decide
example : noEpBeforeSeason false
    (goTrimSpace (rmComplAux 0 false "Show.Name.S01.COMPLETE.1080p-GRP".data))
    = true := by decide
example : noEpBeforeSeason false
    (goTrimSpace (rmComplAux 0 false "Show.Name.1080p".data)) = false := by
  decide
example : noEpBeforeSeason false
    (goTrimSpace (rmComplAux 0 false "E02.Show.S01".data)) = false := by decide
example : extractEpisodeNumber
    (generateEpisodeReleaseName "Show.Name.S01.1080p-GRP" "E05") = "E05" := by
  decide
example : extractEpisodeNumber
    (generateEpisodeReleaseName "Show.Name.S01.COMPLETE.1080p-GRP" "E05")
    = "E05" := by decide
example : createFileList exInfoBadTree ["Pack2.S01"] "x" = .error () := rfl

example : isSeasonPackFallback exTree ["Show.Name.S01.1080p-GRP"] = true := rfl
example : (findAllVideoFiles exTree ["Show.Name.S01.1080p-GRP"]).toOption.map
    List.length = some 3 := rfl
example :
    extractEpisodeInfo exTree
      ⟨["Show.Name.S01.1080p-GRP", "Show.Name.S01E01.1080p-GRP.mkv"],
       ["Show.Name.S01.1080p-GRP"], "Show.Name.S01E01.1080p-GRP.mkv"⟩
      "Show.Name.S01.1080p-GRP" []
    = ⟨⟨["Show.Name.S01.1080p-GRP", "Show.Name.S01E01.1080p-GRP.mkv"],
        ["Show.Name.S01.1080p-GRP"], "Show.Name.S01E01.1080p-GRP.mkv"⟩,
       "E01", "Show.Name.S01E01.1080p-GRP",
       ["Show.Name.S01.1080p-GRP", "Show.Name.S01E01.1080p-GRP.nfo"]⟩ := by decide
example :
    createEpisodeFileList exTree
      ⟨⟨["Show.Name.S01.1080p-GRP", "Show.Name.S01E01.1080p-GRP.mkv"],
        ["Show.Name.S01.1080p-GRP"], "Show.Name.S01E01.1080p-GRP.mkv"⟩,
       "E01", "Show.Name.S01E01.1080p-GRP", []⟩
    = .ok [⟨"Show.Name.S01E01.1080p-GRP.mkv", 100⟩,
           ⟨"Show.Name.S01E01.1080p-GRP.nfo", 5⟩] := rfl
end scratch
